import Mathlib

/-!
Shallow embedding of the grounding / context-synthesis core of the
RAG-chatbot repository (`src/services/validate_metadata.py`,
`src/services/session_metadata.py`, `src/services/content_manager_or.py`,
`src/utils/safety.py`, `src/utils/helpers.py`, `src/main.py`), together
with theorems settling the specification claims about it.

Python dictionaries are modelled as association lists with Python's
insertion-order update semantics (`dset`), machine strings as Lean
`String`, and the Python values that flow through the metadata pipeline
as the inductive `PyVal` below.  External collaborators (S3 template
loading, DynamoDB, the LLM calls, vector search) are modelled as
parameters: the functions below receive the schema, the rendered system
prompt, the loaded history and profile, and the retrieved facts as
arguments, exactly as the Python code receives them from those
collaborators.
-/

namespace RAG

/-- A Python scalar value as it occurs inside metadata lists:
`None`, a `str`, or an `int`. -/
inductive PyScalar where
  | null
  | s (v : String)
  | i (n : Int)
deriving DecidableEq, Repr

/-- A Python value as it occurs in raw/sanitized metadata dictionaries:
`None`, `str`, `int`, or a list.  Lists are modelled as lists of scalars;
nested lists do not occur anywhere in the flows covered by the claims. -/
inductive PyVal where
  | null
  | s (v : String)
  | i (n : Int)
  | list (elems : List PyScalar)
deriving DecidableEq, Repr

/-- Characters stripped by Python's `str.strip()` (ASCII whitespace). -/
def isPySpace (c : Char) : Bool :=
  c = ' ' || c = '\t' || c = '\n' || c = '\r' || c = '\x0b' || c = '\x0c'

/-- Strip `isPySpace` characters from both ends of a character list. -/
def stripChars (l : List Char) : List Char :=
  (l.dropWhile isPySpace).rdropWhile isPySpace

/-- Python's `str.strip()`. -/
def pstrip (str : String) : String :=
  String.mk (stripChars str.data)

/-- Lowercase one ASCII character (all strings flowing through the
modelled pipeline are ASCII; Python's `str.lower()` agrees there). -/
def lowerChar : Char → Char
  | 'A' => 'a' | 'B' => 'b' | 'C' => 'c' | 'D' => 'd' | 'E' => 'e' | 'F' => 'f'
  | 'G' => 'g' | 'H' => 'h' | 'I' => 'i' | 'J' => 'j' | 'K' => 'k' | 'L' => 'l'
  | 'M' => 'm' | 'N' => 'n' | 'O' => 'o' | 'P' => 'p' | 'Q' => 'q' | 'R' => 'r'
  | 'S' => 's' | 'T' => 't' | 'U' => 'u' | 'V' => 'v' | 'W' => 'w' | 'X' => 'x'
  | 'Y' => 'y' | 'Z' => 'z' | c => c

/-- Python's `str.lower()`. -/
def strLower (s : String) : String :=
  String.mk (s.data.map lowerChar)

/-- Python's `str.replace(",", "")`: drop every comma. -/
def stripCommas (s : String) : String :=
  String.mk (s.data.filter (fun c => c ≠ ','))

/-- The split-on-comma worker of `str.split(",")`. -/
def splitOnCommaAux : List Char → List Char → List String
  | [], acc => [String.mk acc.reverse]
  | c :: cs, acc =>
    if c = ',' then String.mk acc.reverse :: splitOnCommaAux cs []
    else splitOnCommaAux cs (c :: acc)

/-- Python's `str.split(",")` (keeps empty parts). -/
def splitOnComma (s : String) : List String :=
  splitOnCommaAux s.data []

/-- Whether the first list is a leading segment of the second. -/
def startsWithChars : List Char → List Char → Bool
  | [], _ => true
  | _ :: _, [] => false
  | a :: as, b :: bs => a == b && startsWithChars as bs

/-- Whether `needle` occurs contiguously inside `hay`. -/
def containsChars (needle : List Char) : List Char → Bool
  | [] => needle.isEmpty
  | c :: rest => startsWithChars needle (c :: rest) || containsChars needle rest

/-- A single decimal digit character. -/
def digitChar : Nat → Char
  | 0 => '0' | 1 => '1' | 2 => '2' | 3 => '3' | 4 => '4'
  | 5 => '5' | 6 => '6' | 7 => '7' | 8 => '8' | _ => '9'

/-- Decimal digits of a natural number (fuel-driven so that it reduces
in the kernel; the fuel `n + 1` always suffices). -/
def natToCharsAux : Nat → Nat → List Char
  | 0, _ => []
  | fuel + 1, n =>
    if n < 10 then [digitChar n]
    else natToCharsAux fuel (n / 10) ++ [digitChar (n % 10)]

/-- Python's `str()` of a non-negative int. -/
def natToStr (n : Nat) : String :=
  String.mk (natToCharsAux (n + 1) n)

/-- Python's `str()` of an int. -/
def intToStr (n : Int) : String :=
  if n < 0 then "-" ++ natToStr n.natAbs else natToStr n.toNat

/-- Join strings with a separator (`sep.join(parts)`). -/
def joinWith (sep : String) : List String → String
  | [] => ""
  | [x] => x
  | x :: xs => x ++ sep ++ joinWith sep xs


/-- Python `str()` of a scalar. -/
def scalarStr : PyScalar → String
  | .null => "None"
  | .s v => v
  | .i n => intToStr n

/-- Python `repr()` of a scalar (used when a list is stringified). -/
def scalarRepr : PyScalar → String
  | .s v => "\x27" ++ v ++ "\x27"
  | x => scalarStr x

/-- Python `str()` of a value. -/
def pyStr : PyVal → String
  | .null => "None"
  | .s v => v
  | .i n => intToStr n
  | .list l => "[" ++ joinWith ", " (l.map scalarRepr) ++ "]"

/-- Python truthiness of a scalar. -/
def scalarTruthy : PyScalar → Bool
  | .null => false
  | .s v => v != ""
  | .i n => n != 0

/-- Python truthiness of a value (`if value:` / `if not value:`). -/
def pyTruthy : PyVal → Bool
  | .null => false
  | .s v => v != ""
  | .i n => n != 0
  | .list l => !l.isEmpty

/-- Order-stable deduplication, keeping the first occurrence of each
element.  This models Python's `list(set(xs))`: the `set` iteration order
is unspecified, so the first-occurrence order is chosen as the canonical
representative; theorems about list-valued fields compare them as sets. -/
def pyDedup {α : Type} [DecidableEq α] : List α → List α
  | [] => []
  | a :: t => a :: (pyDedup t).filter (fun x => x ≠ a)


/-- Maximal runs of ASCII digits in a character list, accumulator-first.
Models the behaviour of the regex `\d` runs used by the Python code. -/
def digitRunsAux : List Char → List Char → List (List Char)
  | [], acc => if acc.isEmpty then [] else [acc.reverse]
  | c :: cs, acc =>
    if c.isDigit then digitRunsAux cs (c :: acc)
    else if acc.isEmpty then digitRunsAux cs []
    else acc.reverse :: digitRunsAux cs []

/-- All maximal digit runs of length at least 3, in order: the matches of
the Python regex findall `\d` repeated 3-or-more (greedy) on the string. -/
def digitRuns (str : String) : List String :=
  ((digitRunsAux str.data []).filter (fun r => decide (3 ≤ r.length))).map String.mk

/-- Numeric value of a digit string (`int(...)` on a digits-only string). -/
def natOfDigits (str : String) : Nat :=
  str.data.foldl (fun n c => n * 10 + (c.toNat - 48)) 0

/-- Group a reversed digit-character list into blocks of three. -/
def chunk3 : List Char → List (List Char)
  | [] => []
  | [c] => [[c]]
  | [c1, c2] => [[c1, c2]]
  | c1 :: c2 :: c3 :: rest => [c1, c2, c3] :: chunk3 rest

/-- Python's thousands-separated formatting of a natural number,
as in the f-string format spec comma (e.g. 250000 becomes "250,000"). -/
def fmtComma (n : Nat) : String :=
  joinWith "," (((chunk3 (natToStr n).data.reverse).map
    (fun g => String.mk g.reverse)).reverse)

/-- Thousands-separated formatting of an integer. -/
def fmtCommaInt (n : Int) : String :=
  if n < 0 then "-" ++ fmtComma n.natAbs else fmtComma n.toNat

/-- Python's substring test (the `in` operator on strings). -/
def strContains (hay needle : String) : Bool :=
  containsChars needle.data hay.data

/-- Lookup in a Python dict modelled as an association list:
`d.get(k)` (None-free: returns `Option`). -/
def dget {α : Type} (d : List (String × α)) (k : String) : Option α :=
  (d.find? (fun p => p.1 == k)).map Prod.snd

/-- Update of a Python dict modelled as an association list: an existing
key keeps its position and gets the new value, a new key is appended
(Python's insertion-order semantics of `d[k] = v`). -/
def dset {α : Type} (d : List (String × α)) (k : String) (v : α) : List (String × α) :=
  if d.any (fun p => p.1 == k) then d.map (fun p => if p.1 == k then (k, v) else p)
  else d ++ [(k, v)]


/-! ## The metadata sanitizer (`src/services/validate_metadata.py`) -/

/-- `sanitize_range_number` (validate_metadata.py lines 17-43): extract the
maximal digit runs of length at least 3 from `str(value)` with commas
stripped first; exactly two runs give a low-high currency range, exactly
one gives a single currency amount, anything else gives `None`.  The
`int(...)` calls on digit-only strings cannot raise, so the source's
try/except never fires. -/
def sanitize_range_number (value : PyVal) : Option String :=
  if !pyTruthy value then none
  else
    let m := digitRuns (stripCommas (pyStr value))
    if m.length = 2 then
      some ("£" ++ fmtComma (natOfDigits (m.headD "")) ++ "–£"
        ++ fmtComma (natOfDigits ((m.drop 1).headD "")))
    else if m.length = 1 then
      some ("£" ++ fmtComma (natOfDigits (m.headD "")))
    else none

/-- `sanitize_list` (lines 45-64): a string is split on commas and each
part trimmed; a list keeps its truthy elements, stringified and trimmed;
anything else gives the empty list. -/
def sanitize_list (value : PyVal) : List String :=
  match value with
  | .s v => (splitOnComma v).map pstrip
  | .list l => (l.filter scalarTruthy).map (fun e => pstrip (scalarStr e))
  | _ => []

/-- `sanitize_type` (lines 66-85): a non-empty list yields its first
element `.strip().lower()` — which raises `AttributeError` when that
element is not a string; a string is trimmed and lowercased; anything
else yields `None`. -/
def sanitize_type (value : PyVal) : Except String (Option String) :=
  match value with
  | .list (e :: _) =>
    match e with
    | .s v => .ok (some (strLower (pstrip v)))
    | _ => .error "AttributeError: object has no attribute strip"
  | .list [] => .ok none
  | .s v => .ok (some (strLower (pstrip v)))
  | _ => .ok none

/-- `normalize_choice` (lines 87-106): case-insensitive exact match of a
string input against the declared choices, returning the first matching
choice with its canonical casing, else `None`. -/
def normalize_choice (value : PyVal) (valid_choices : List String) : Option String :=
  match value with
  | .s v => valid_choices.find? (fun choice => strLower (pstrip v) == strLower choice)
  | _ => none

/-- The `string` entry of `FIELD_SANITIZERS` (line 113):
`str(v).strip()` when the input is a string, else `None`. -/
def sanitize_string (value : PyVal) : PyVal :=
  match value with
  | .s v => .s (pstrip v)
  | _ => .null

/-- A field's scoring table: either a categorical option-to-weight map or
the threshold table `{"thresholds": [...], "scores": [...]}` used for
`range_number` fields. -/
inductive Weights where
  | categorical (table : List (String × Int))
  | thresh (thresholds : List Int) (scores : List Int)
deriving DecidableEq, Repr

/-- One display field of the schema's `display_fields` (the `prefix` and
`suffix` keys of the source are named `pre`/`suf` here). -/
structure DisplayField where
  key : String
  label : String
  pre : String := ""
  suf : String := ""
  numfmt : Bool := false
deriving DecidableEq, Repr

/-- One entry of the schema's `metadata_fields`: the optional `type`
(read with default "string" by the sanitizer and with no default by the
classifier), optional `choices` and optional `weights`. -/
structure FieldConfig where
  ftype : Option String := none
  choices : Option (List String) := none
  weights : Option Weights := none
deriving DecidableEq, Repr

/-- The field schema loaded from S3 (`fields.json` of the domain). -/
structure FieldSchema where
  metadata_fields : List (String × FieldConfig) := []
  lead_score_thresholds : Option (List (String × Int)) := none
  display_fields : List DisplayField := []
  context_labels : List (String × String) := []
deriving DecidableEq, Repr

/-- `raw.get(field)`: a missing key reads as Python `None`. -/
def rawGet (raw : List (String × PyVal)) (k : String) : PyVal :=
  (dget raw k).getD .null

/-- Embed an optional normalized string as the stored Python value. -/
def optToPy (o : Option String) : PyVal :=
  match o with
  | some v => .s v
  | none => .null

/-- Sanitize one declared field (the body of the `validate_metadata`
loop, lines 137-149): `choices` fields go through `normalize_choice`,
otherwise the sanitizer registered for the field type applies, and an
unknown type is logged and passed through unchanged. -/
def sanitize_field (config : FieldConfig) (value : PyVal) : Except String PyVal :=
  match config.choices with
  | some cs => .ok (optToPy (normalize_choice value cs))
  | none =>
    match config.ftype.getD "string" with
    | "range_number" => .ok (optToPy (sanitize_range_number value))
    | "list" => .ok (.list ((sanitize_list value).map PyScalar.s))
    | "type" => (sanitize_type value).map optToPy
    | "string" => .ok (sanitize_string value)
    | _ => .ok value

/-- The `validate_metadata` field loop, recursing over the schema's
declared fields in order and extending the output dict. -/
def validate_fields (raw : List (String × PyVal)) (metadata : List (String × PyVal)) :
    List (String × FieldConfig) → Except String (List (String × PyVal))
  | [] => .ok metadata
  | (field, config) :: rest =>
    match sanitize_field config (rawGet raw field) with
    | .error e => .error e
    | .ok v => validate_fields raw (dset metadata field v) rest

/-- `validate_metadata` (lines 116-151): starts from
`{"session_id": raw.get("session_id")}` and sanitizes every
schema-declared field.  The schema itself is a parameter (the source
loads it from S3; a missing schema is the only non-sanitizer failure). -/
def validate_metadata (raw : List (String × PyVal)) (schema : FieldSchema) :
    Except String (List (String × PyVal)) :=
  validate_fields raw (dset [] "session_id" (rawGet raw "session_id")) schema.metadata_fields

/-! ## The lead classifier (`classify_lead`, validate_metadata.py lines 153-202) -/

/-- The threshold loop of `classify_lead` (lines 186-188): every
`(threshold, score)` pair whose threshold does not exceed `max_val`
contributes its score — the loop has no break. -/
def threshLoop (pairs : List (Int × Int)) (maxVal : Int) : Int :=
  match pairs with
  | [] => 0
  | p :: rest => (if maxVal ≥ p.1 then p.2 else 0) + threshLoop rest maxVal

/-- Python `str(value).strip().lower()`. -/
def pyLowerStrip (value : PyVal) : String :=
  strLower (pstrip (pyStr value))

/-- Contribution of one schema field to the lead score (body of the
`classify_lead` loop, lines 174-195).  A falsy or missing value or a
field without weights contributes 0; a `range_number` field with a
threshold table takes `int(match[-1])` of the digit runs of the
comma-stripped value and runs the threshold loop; otherwise the first
case-insensitively matching categorical option contributes its weight.
(A threshold table on a non-`range_number` field would make the source
iterate the raw dict items; that combination appears in no claim and
contributes 0 here.) -/
def fieldScore (metadata : List (String × PyVal)) (key : String) (config : FieldConfig) : Int :=
  let value := (dget metadata key).getD .null
  if !pyTruthy value then 0
  else
    match config.weights with
    | none => 0
    | some (.thresh ts ss) =>
      if config.ftype = some "range_number" then
        match (digitRuns (stripCommas (pyStr value))).getLast? with
        | none => 0
        | some r => threshLoop (ts.zip ss) (natOfDigits r)
      else 0
    | some (.categorical table) =>
      match table.find? (fun ow => pyLowerStrip value == strLower (pstrip ow.1)) with
      | some ow => ow.2
      | none => 0

/-- Total score of the `classify_lead` loop. -/
def leadScore (metadata : List (String × PyVal)) (schema : FieldSchema) : Int :=
  (schema.metadata_fields.map (fun fc => fieldScore metadata fc.1 fc.2)).sum

/-- Tier cutoff: `schema.get("lead_score_thresholds", default).get(name, dflt)`. -/
def tierCut (schema : FieldSchema) (name : String) (dflt : Int) : Int :=
  match schema.lead_score_thresholds with
  | some d => (dget d name).getD dflt
  | none => dflt

/-- `classify_lead` (lines 153-202): sum the field contributions and
compare against the Hot/Warm cutoffs. -/
def classify_lead (metadata : List (String × PyVal)) (schema : FieldSchema) : String :=
  let score := leadScore metadata schema
  if score ≥ tierCut schema "Hot" 3 then "Hot"
  else if score ≥ tierCut schema "Warm" 1 then "Warm"
  else "Cold"

/-! ## The metadata merger (`src/services/session_metadata.py`)

`update_and_save_metadata` merges the sanitized incoming metadata into
the loaded profile (skipping `None` values, set-unioning lists),
recomputes `lead_classification`, and calls `save_metadata`, which
re-merges against the stored profile (also skipping blank strings,
stringifying scalars) and persists only non-empty values.  The DynamoDB
reads and writes are external; the pure merge cores are modelled here
and composed by `merge_and_save`. -/

/-- The list value of a stored entry (`d.get(key, [])` in a context
expecting a list): missing keys read as the empty list.  A stored
non-list value makes Python's `list + value` concatenation raise, which
the callers below surface as an error. -/
def exListD (cur : Option PyVal) : List PyScalar :=
  match cur with
  | some (.list ex) => ex
  | _ => []

/-- Whether `cur ++ incoming-list` is well-typed in Python: the slot is
absent or holds a list. -/
def listCompat (cur : Option PyVal) : Prop :=
  cur = none ∨ ∃ ex, cur = some (PyVal.list ex)

instance (cur : Option PyVal) : Decidable (listCompat cur) := by
  unfold listCompat
  rcases cur with _ | v
  · exact isTrue (Or.inl rfl)
  · cases v with
    | list ex => exact isTrue (Or.inr ⟨ex, rfl⟩)
    | null => refine isFalse ?_; rintro (h | ⟨ex, h⟩) <;> simp at h
    | s w => refine isFalse ?_; rintro (h | ⟨ex, h⟩) <;> simp at h
    | i n => refine isFalse ?_; rintro (h | ⟨ex, h⟩) <;> simp at h

/-- The merge loop of `update_and_save_metadata` (lines 38-45): `None`
incoming values are skipped, list values are set-unioned with the
current slot (`list(set(merged.get(key, []) + value))`, a `TypeError`
when the slot holds a non-list), and any other value overwrites. -/
def update_merge (merged : List (String × PyVal)) :
    List (String × PyVal) → Except String (List (String × PyVal))
  | [] => .ok merged
  | (k, v) :: rest =>
    match v with
    | .null => update_merge merged rest
    | .list l =>
      if listCompat (dget merged k) then
        update_merge (dset merged k (.list (pyDedup (exListD (dget merged k) ++ l)))) rest
      else .error "TypeError: can only concatenate list to list"
    | v => update_merge (dset merged k v) rest

/-- The merge loop of `save_metadata` (lines 79-85): `None` and blank
strings are skipped, lists are set-unioned against the *stored* profile
(`existing.get(key, [])`), and any other value is stored as `str(value)`. -/
def save_merge (existing merged : List (String × PyVal)) :
    List (String × PyVal) → Except String (List (String × PyVal))
  | [] => .ok merged
  | (k, v) :: rest =>
    match v with
    | .null => save_merge existing merged rest
    | .s str =>
      if pstrip str = "" then save_merge existing merged rest
      else save_merge existing (dset merged k (.s str)) rest
    | .list l =>
      if listCompat (dget existing k) then
        save_merge existing (dset merged k (.list (pyDedup (exListD (dget existing k) ++ l)))) rest
      else .error "TypeError: can only concatenate list to list"
    | v => save_merge existing (dset merged k (.s (pyStr v))) rest

/-- The DynamoDB item construction of `save_metadata` (lines 87-96)
combined with the corresponding read-back of `load_metadata`: only
non-empty lists (stored as the string set `SS` via `map(str, value)`,
set semantics modelled by `pyDedup`) and non-blank strings (stored
stripped) survive; everything else is dropped. -/
def persist_filter (merged : List (String × PyVal)) : List (String × PyVal) :=
  merged.filterMap (fun p =>
    match p.2 with
    | .list l =>
      if l.isEmpty then none
      else some (p.1, PyVal.list (pyDedup (l.map (fun e => PyScalar.s (scalarStr e)))))
    | .s v => if pstrip v = "" then none else some (p.1, PyVal.s (pstrip v))
    | _ => none)

/-- One full merge-and-save turn on the profile store: the merge of
`update_and_save_metadata` (with the re-classification of line 48),
followed by `save_metadata`'s re-merge against the still-unchanged
stored profile and the persisted result as `load_metadata` returns it. -/
def merge_and_save (schema : FieldSchema) (existing incoming : List (String × PyVal)) :
    Except String (List (String × PyVal)) :=
  match update_merge existing incoming with
  | .error e => .error e
  | .ok m1 =>
    let m1c := dset m1 "lead_classification" (.s (classify_lead m1 schema))
    match save_merge existing existing m1c with
    | .error e => .error e
    | .ok m2 => .ok (persist_filter m2)

/-! ### Per-key semantics of the merge pipeline

The loops above act on one key at a time; the combinators below express
what happens to a single slot, and the characterization lemmas at the
end of this file show that the loops compute exactly these combinators
pointwise. -/

/-- Effect of one incoming value on a slot in `update_merge`. -/
def updVal (cur : Option PyVal) : PyVal → Option PyVal
  | .null => cur
  | .list lm => some (.list (pyDedup (exListD cur ++ lm)))
  | w => some w

/-- The slot of the merged dict after `update_merge`: untouched when the
incoming metadata has no entry for the key, else transformed by
`updVal`. -/
def mergedSlot (pk mk : Option PyVal) : Option PyVal :=
  match mk with
  | none => pk
  | some v => updVal pk v

/-- Effect of one entry of the merged metadata on a slot in
`save_merge`, given the stored profile's slot `existSlot` and the
current accumulator slot `cur`. -/
def saveVal (existSlot cur : Option PyVal) : Option PyVal → Option PyVal
  | none => cur
  | some .null => cur
  | some (.s str) => if pstrip str = "" then cur else some (.s str)
  | some (.list lm) => some (.list (pyDedup (exListD existSlot ++ lm)))
  | some w => some (.s (pyStr w))

/-- The slot surviving persistence (`persist_filter`) and re-reading. -/
def keepVal : Option PyVal → Option PyVal
  | some (.list l) =>
    if l.isEmpty then none
    else some (.list (pyDedup (l.map (fun e => PyScalar.s (scalarStr e)))))
  | some (.s v) => if pstrip v = "" then none else some (.s (pstrip v))
  | _ => none

/-- The persisted slot of a non-`lead_classification` key after one full
`merge_and_save`, as a function of the stored slot `pk` and the incoming
slot `mk`. -/
def finalSlot (pk mk : Option PyVal) : Option PyVal :=
  keepVal (saveVal pk pk (mergedSlot pk mk))

/-! ## The context assembler (`src/services/content_manager_or.py`) -/

/-- One message of the OpenRouter conversation context. -/
structure Message where
  role : String
  content : String
deriving DecidableEq, Repr

/-- One history entry as `format_history_or` sees it after unwrapping the
DynamoDB attribute format.  The source additionally extracts the
`"reply"` field from JSON-blob assistant messages and strips trailing
session-metadata JSON blocks; those string-normalisation steps touch no
claim, and `content` holds the already-extracted text.  The role
filtering is modelled exactly. -/
structure HistoryItem where
  role : String
  content : String
deriving DecidableEq, Repr

/-- `format_history_or` (content_manager_or.py lines 12-54): keep only
user/assistant/system entries, in order. -/
def format_history_or (history : List HistoryItem) : List Message :=
  (history.filter (fun item =>
    item.role == "user" || item.role == "assistant" || item.role == "system")).map
    (fun item => ⟨item.role, item.content⟩)

/-- The payload of a retrieved listing: the `external_id` and `address`
used by the grounding check, plus the remaining display fields. -/
structure Payload where
  external_id : String
  address : String
  extra : List (String × PyVal) := []
deriving DecidableEq, Repr

/-- A retrieved listing (a "fact" in the specification's vocabulary). -/
structure Listing where
  payload : Payload
deriving DecidableEq, Repr

/-- `payload.get(key, "Unknown")`-style lookup over the modelled payload
dict, whose `external_id` and `address` keys are always present. -/
def payloadGet (p : Payload) (k : String) : Option PyVal :=
  if k = "external_id" then some (.s p.external_id)
  else if k = "address" then some (.s p.address)
  else dget p.extra k

/-- Python `int(value)` as used by the `format == "number"` branch:
succeeds on ints and on strings that are (possibly space-padded, signed)
digit strings; anything else raises `ValueError`, which the source
swallows. -/
def pyToInt (v : PyVal) : Option Int :=
  match v with
  | .i n => some n
  | .s str =>
    let t := (pstrip str).data
    let core := match t with
      | '-' :: r => r
      | '+' :: r => r
      | r => r
    let neg : Bool := match t with
      | '-' :: _ => true
      | _ => false
    if !core.isEmpty && core.all Char.isDigit then
      some (if neg then -(natOfDigits (String.mk core) : Int) else (natOfDigits (String.mk core) : Int))
    else none
  | _ => none

/-- Render one display field of one listing (`format_similar_items_or`
lines 87-97). -/
def renderDisplayField (payload : Payload) (field : DisplayField) : String :=
  let value := (payloadGet payload field.key).getD (.s "Unknown")
  if value = .s "Unknown" then "- " ++ field.label ++ ": Unknown"
  else
    let shown :=
      if field.numfmt then
        match pyToInt value with
        | some n => fmtCommaInt n
        | none => pyStr value
      else pyStr value
    "- " ++ field.label ++ ": " ++ field.pre ++ shown ++ field.suf

/-- Render one listing block (`Property i of n:` plus its fields). -/
def renderListing (display_fields : List DisplayField) (n : Nat) (idx : Nat)
    (item : Listing) : List String :=
  ("Property " ++ natToStr idx ++ " of " ++ natToStr n ++ ":")
    :: (display_fields.map (renderDisplayField item.payload) ++ [""])

/-- `format_similar_items_or` (lines 57-101): the header line, one block
per listing with its schema-declared display fields, and the closing
anti-hallucination directive. -/
def format_similar_items_or (similar_items : List Listing) (field_schema : FieldSchema) :
    String :=
  if similar_items.isEmpty then "There are currently no matching listings."
  else
    let n := similar_items.length
    let head := "There " ++ (if n = 1 then "is" else "are") ++ " " ++ natToStr n
      ++ " matching listing" ++ (if n > 1 then "s" else "") ++ " available:"
    let blocks := (similar_items.enumFrom 1).flatMap
      (fun pair => renderListing field_schema.display_fields n pair.1 pair.2)
    joinWith "\n"
      ([head, ""] ++ blocks
        ++ ["⚠️ The assistant must ONLY reference these listings. Do not invent additional options."])

/-- `format_metadata_context_prompt` (prompt_helpers.py lines 4-38):
empty metadata renders as the empty string; otherwise the header, one
line per schema context label whose metadata value is truthy (lists
joined with ", "), and the closing instruction. -/
def format_metadata_context_prompt (metadata : List (String × PyVal))
    (schema : FieldSchema) : String :=
  if metadata.isEmpty then ""
  else
    let prefLines := schema.context_labels.filterMap (fun kl =>
      match dget metadata kl.1 with
      | some v =>
        if pyTruthy v then
          some ("- " ++ kl.2 ++ ": " ++
            (match v with
             | .list l => joinWith ", " (l.map scalarStr)
             | w => pyStr w))
        else none
      | none => none)
    joinWith "\n"
      (["📌 The user has already confirmed the following preferences in earlier messages. Do NOT change or ignore these unless the user explicitly says otherwise."]
        ++ prefLines
        ++ ["\n👉 Continue the conversation using this context and only update fields if the user clearly expresses a change."])

/-- The no-facts user message of `build_prompt_or` (line 163). -/
def noListingsText : String :=
  "There are currently no listings available that match the user\x27s query. You must not invent any new listings. Wait for further input."

/-- `build_prompt_or` (lines 103-170): system prompt, filtered history,
optional grounding message, then the facts block.  With a non-empty
fact list the source calls `format_similar_items_or(similar_items)`
without its required `field_schema` argument, which raises `TypeError`
before any message can be produced; the empty case emits the no-facts
message.  Finally the current user message is appended unless the tail
already equals it. -/
def build_prompt_or (system_prompt current_message : String) (history : List HistoryItem)
    (similar_items : List Listing) (session_metadata : List (String × PyVal))
    (schema : FieldSchema) : Except String (List Message) :=
  let base : List Message := [⟨"system", pstrip system_prompt⟩]
  let base := base ++ (format_history_or history).filter (fun m => m.role ≠ "system")
  let base := base ++
    (if session_metadata.isEmpty then []
     else [⟨"user", format_metadata_context_prompt session_metadata schema⟩])
  if similar_items.isEmpty then
    let base := base ++ [⟨"user", noListingsText⟩]
    -- `if not messages or messages[-1]["role"] != "user" or
    --  messages[-1]["content"] != current_message:` — equivalently, skip the
    -- append exactly when the tail is already this user message.
    let base :=
      if base.getLast? = some (⟨"user", current_message⟩ : Message) then base
      else base ++ [⟨"user", current_message⟩]
    .ok base
  else
    .error "TypeError: format_similar_items_or() missing 1 required positional argument: field_schema"

/-! ## The grounding verifier (`src/utils/safety.py`) -/

/-- The generic listing-referencing vocabulary of the verifier. -/
def listingKeywords : List String := ["listing", "property", "address", "option", "match"]

/-- `is_reply_grounded` (safety.py lines 3-44). -/
def is_reply_grounded (reply_text : String) (similar_items : List Listing)
    (must_match : Bool := false) : Bool :=
  if similar_items.isEmpty then true
  else
    let reply_lower := strLower reply_text
    if strContains reply_lower "would a" && strContains reply_lower "also work for you" then
      true
    else
      let mentions_known_items :=
        similar_items.any (fun h => strContains reply_lower (strLower h.payload.address))
          || similar_items.any (fun h => strContains reply_lower (strLower h.payload.external_id))
      let mentions_possible_listing :=
        listingKeywords.any (fun keyword => strContains reply_lower keyword)
      if mentions_known_items then true
      else if mentions_possible_listing then !must_match
      else true

/-! ## The turn orchestrator fragments (`src/main.py`) -/

/-- `has_valid_value` (utils/helpers.py lines 60-70): a string with
non-whitespace content. -/
def has_valid_value (value : Option PyVal) : Bool :=
  match value with
  | some (.s v) => pstrip v != ""
  | _ => false

/-- The fact-injection eligibility decision (main.py lines 110-114). -/
def inject_similar_items (session_metadata : List (String × PyVal)) : Bool :=
  has_valid_value (dget session_metadata "location")
    && has_valid_value (dget session_metadata "urgency")
    && has_valid_value (dget session_metadata "budget")

/-- The fact set actually used (main.py lines 118-122): retrieved facts,
falling back to the previously shown ones, gated by eligibility. -/
def similar_items_for_prompt (session_metadata : List (String × PyVal))
    (current previous : List Listing) : List Listing :=
  let sim := if current.isEmpty then previous else current
  if inject_similar_items session_metadata then sim else []

/-- Context assembly of one turn (main.py lines 110-128): gate the fact
set and build the prompt. -/
def handler_context (session_metadata : List (String × PyVal)) (history : List HistoryItem)
    (current previous : List Listing) (message system_prompt : String)
    (schema : FieldSchema) : Except String (List Message) :=
  build_prompt_or system_prompt message history
    (similar_items_for_prompt session_metadata current previous) session_metadata schema

/-- The canned substitute reply of the hallucination branch
(main.py lines 140-143). -/
def hallucinationFallback : String :=
  "I’m sorry — I wasn’t able to find any additional listings that match your request. Would you like to adjust your preferences?"

/-- The grounding check of the orchestrator (main.py lines 137-143):
`is_reply_grounded` is invoked with `must_match` left at its default. -/
def applied_reply (reply : String) (similar_items : List Listing) : String :=
  if !is_reply_grounded reply similar_items then hallucinationFallback else reply


/-! ## Well-formedness of stored profiles and sanitized metadata

`load_metadata` only ever returns non-blank stripped strings (DynamoDB
`S` attributes, stored via `value.strip()`) and non-empty string sets
(`SS` attributes), and the specification's data model restricts
SanitizedMetadata values to normalized strings, lists of strings and
null, with `lead_classification` a derived tag rather than a metadata
field.  The merge theorems quantify over exactly those profiles. -/

/-- Whether a scalar is a Python string. -/
def isStrScalar : PyScalar → Bool
  | .s _ => true
  | _ => false

/-- A value as persisted profiles store it: a stripped non-blank string,
or a non-empty duplicate-free list of strings. -/
def WFVal : PyVal → Prop
  | .s v => pstrip v = v ∧ v ≠ ""
  | .list l => l ≠ [] ∧ l.Nodup ∧ ∀ e ∈ l, isStrScalar e = true
  | _ => False

instance (v : PyVal) : Decidable (WFVal v) := by
  cases v with
  | null => exact inferInstanceAs (Decidable False)
  | s w => exact inferInstanceAs (Decidable (_ ∧ _))
  | i n => exact inferInstanceAs (Decidable False)
  | list l => exact inferInstanceAs (Decidable (_ ∧ _ ∧ _))

/-- A stored profile as `load_metadata` returns it: unique keys, all
values well-formed. -/
def ProfileWF (P : List (String × PyVal)) : Prop :=
  (P.map Prod.fst).Nodup ∧ ∀ kv ∈ P, WFVal kv.2

/-- A value of the specification's SanitizedMetadata data model:
null, a string, or a list of strings. -/
def SanitizedVal : PyVal → Prop
  | .null => True
  | .s _ => True
  | .list l => ∀ e ∈ l, isStrScalar e = true
  | .i _ => False

instance (v : PyVal) : Decidable (SanitizedVal v) := by
  cases v with
  | null => exact inferInstanceAs (Decidable True)
  | s w => exact inferInstanceAs (Decidable True)
  | i n => exact inferInstanceAs (Decidable False)
  | list l => exact inferInstanceAs (Decidable (∀ e ∈ l, isStrScalar e = true))

/-- Sanitized incoming metadata per the data model: unique keys, values
null/string/string-list, and no `lead_classification` key (that tag is
derived by the merge itself, not extracted). -/
def SanitizedWF (M : List (String × PyVal)) : Prop :=
  (M.map Prod.fst).Nodup ∧ (∀ kv ∈ M, SanitizedVal kv.2)
    ∧ ∀ kv ∈ M, kv.1 ≠ "lead_classification"

/-- A schema that does not declare the derived `lead_classification` tag
as a scored metadata field (the data model keeps it out of
`metadata_fields`). -/
def SchemaNoLC (schema : FieldSchema) : Prop :=
  ∀ fc ∈ schema.metadata_fields, fc.1 ≠ "lead_classification"

instance (P : List (String × PyVal)) : Decidable (ProfileWF P) := by
  unfold ProfileWF
  infer_instance

instance (M : List (String × PyVal)) : Decidable (SanitizedWF M) := by
  unfold SanitizedWF
  infer_instance

instance (schema : FieldSchema) : Decidable (SchemaNoLC schema) := by
  unfold SchemaNoLC
  infer_instance

/-- Well-formedness of an optional stored slot. -/
def OptWF : Option PyVal → Prop
  | none => True
  | some v => WFVal v

/-- Data-model conformance of an optional incoming slot. -/
def OptSan : Option PyVal → Prop
  | none => True
  | some v => SanitizedVal v

/-! ## Claim-side definitions

The `claimed*` definitions below follow the wording of specification
claims (not the source); they exist only to be compared against the
source-derived definitions above. -/

/-- Modelled from the claim wording of C2: the contribution of a
threshold-based range_number field is the score of the single highest
threshold not exceeding the upper bound (thresholds and scores parallel
ordered sequences, ties favouring the highest qualifying threshold). -/
def claimedThresholdContribution (thresholds scores : List Int) (maxVal : Int) : Int :=
  (((thresholds.zip scores).filter (fun p => maxVal ≥ p.1)).getLast?.map Prod.snd).getD 0

/-- Modelled from the claim wording of C7: the grounding decision
procedure exactly as the claim states it — empty fact set accepts, a
known identifier or address substring accepts, listing vocabulary
without a known fact rejects exactly in strict mode, anything else
accepts.  (The source's benign-clarification early accept is absent.) -/
def claimedGroundingProcedure (reply_text : String) (similar_items : List Listing)
    (must_match : Bool) : Bool :=
  if similar_items.isEmpty then true
  else
    let reply_lower := strLower reply_text
    let mentions_known_items :=
      similar_items.any (fun h => strContains reply_lower (strLower h.payload.address))
        || similar_items.any (fun h => strContains reply_lower (strLower h.payload.external_id))
    let mentions_possible_listing :=
      listingKeywords.any (fun keyword => strContains reply_lower keyword)
    if mentions_known_items then true
    else if mentions_possible_listing then !must_match
    else true

/-- The C7 procedure as amended: identical to the claimed one except
that a reply containing both "would a" and "also work for you"
(case-insensitively) is accepted unconditionally right after the
empty-fact-set check. -/
def amendedGroundingProcedure (reply_text : String) (similar_items : List Listing)
    (must_match : Bool) : Bool :=
  if similar_items.isEmpty then true
  else
    let reply_lower := strLower reply_text
    if strContains reply_lower "would a" && strContains reply_lower "also work for you" then
      true
    else
      let mentions_known_items :=
        similar_items.any (fun h => strContains reply_lower (strLower h.payload.address))
          || similar_items.any (fun h => strContains reply_lower (strLower h.payload.external_id))
      let mentions_possible_listing :=
        listingKeywords.any (fun keyword => strContains reply_lower keyword)
      if mentions_known_items then true
      else if mentions_possible_listing then !must_match
      else true

/-! ## Shared example fixtures -/

/-- A retrieved listing used across examples. -/
def exListing : Listing := ⟨⟨"ext-42", "12 King Street", [("price", .i 250000)]⟩⟩

/-- A schema with display fields and context labels for the assembler. -/
def exDisplaySchema : FieldSchema :=
  { display_fields := [⟨"address", "Address", "", "", false⟩, ⟨"price", "Price", "£", "", true⟩],
    context_labels := [("location", "Location"), ("budget", "Budget")] }

/-- A complete profile: location, urgency and budget all valid. -/
def exCompleteProfile : List (String × PyVal) :=
  [("location", .s "Leeds"), ("urgency", .s "high"), ("budget", .s "£250,000")]

/-- A schema whose budget field carries a threshold-based weight table. -/
def exThreshSchema : FieldSchema :=
  { metadata_fields :=
      [("budget", ⟨some "range_number", none, some (Weights.thresh [100000, 200000] [1, 2])⟩)] }

/-- A schema declaring a `type`-sanitized field without choices. -/
def exTypeSchema : FieldSchema :=
  { metadata_fields := [("property_type", { ftype := some "type" })] }

/-- A small stored profile for the merge-idempotence example. -/
def exP5 : List (String × PyVal) := [("location", .s "Leeds")]

/-- Sanitized incoming metadata for the merge-idempotence example. -/
def exM5 : List (String × PyVal) :=
  [("budget", .s "£250,000"), ("amenities", .list [.s "garden"]), ("session_id", .s "abc")]

/-- The persisted profile produced by merging `exM5` into `exP5`. -/
def exQ5 : List (String × PyVal) :=
  [("location", .s "Leeds"), ("budget", .s "£250,000"),
   ("amenities", .list [.s "garden"]), ("session_id", .s "abc"),
   ("lead_classification", .s "Hot")]

/-- A stored profile with a list-valued field, for the monotonicity example. -/
def exP6 : List (String × PyVal) :=
  [("location", .s "Leeds"), ("amenities", .list [.s "garden"])]

/-- Sanitized incoming metadata that extends the stored list field. -/
def exM6 : List (String × PyVal) :=
  [("amenities", .list [.s "parking"]), ("budget", .s "£300,000")]

/-- The persisted profile produced by merging `exM6` into `exP6`. -/
def exQ6 : List (String × PyVal) :=
  [("location", .s "Leeds"), ("amenities", .list [.s "garden", .s "parking"]),
   ("budget", .s "£300,000"), ("lead_classification", .s "Hot")]

/-! ## General lemmas about the Python-model primitives -/

theorem stripChars_idem (l : List Char) : stripChars (stripChars l) = stripChars l := by
  unfold stripChars
  set m := l.dropWhile isPySpace with hm
  have hdrop : (m.rdropWhile isPySpace).dropWhile isPySpace = m.rdropWhile isPySpace := by
    rw [List.dropWhile_eq_self_iff]
    intro hl
    have hpre : m.rdropWhile isPySpace <+: m := List.rdropWhile_prefix isPySpace m
    have hmlen : 0 < m.length := lt_of_lt_of_le hl hpre.length_le
    have hget : (m.rdropWhile isPySpace).get ⟨0, hl⟩ = m.get ⟨0, hmlen⟩ := by
      simpa [List.get_eq_getElem] using hpre.getElem hl
    have hnot : ¬ isPySpace (m.get ⟨0, hmlen⟩) = true :=
      List.dropWhile_get_zero_not isPySpace l hmlen
    rw [hget]
    exact hnot
  rw [hdrop, List.rdropWhile_idempotent]

theorem pstrip_idem (s : String) : pstrip (pstrip s) = pstrip s := by
  unfold pstrip
  exact congrArg String.mk (stripChars_idem s.data)

theorem pyDedup_nil {α : Type} [DecidableEq α] : pyDedup ([] : List α) = [] := rfl

theorem pyDedup_cons {α : Type} [DecidableEq α] (a : α) (t : List α) :
    pyDedup (a :: t) = a :: (pyDedup t).filter (fun x => x ≠ a) := rfl

theorem mem_pyDedup {α : Type} [DecidableEq α] {x : α} {l : List α} :
    x ∈ pyDedup l ↔ x ∈ l := by
  induction l with
  | nil => simp [pyDedup]
  | cons a t ih =>
    rw [pyDedup_cons]
    by_cases hxa : x = a
    · subst hxa; simp
    · simp only [List.mem_cons, hxa, false_or, List.mem_filter, ← ih]
      simp [hxa]

theorem pyDedup_nodup {α : Type} [DecidableEq α] : ∀ (l : List α), (pyDedup l).Nodup := by
  intro l
  induction l with
  | nil => simp [pyDedup]
  | cons a t ih =>
    rw [pyDedup_cons]
    refine List.nodup_cons.mpr ⟨?_, ih.filter _⟩
    intro hmem
    simp [List.mem_filter] at hmem

theorem pyDedup_eq_self {α : Type} [DecidableEq α] :
    ∀ {l : List α}, l.Nodup → pyDedup l = l := by
  intro l
  induction l with
  | nil => intro _; rfl
  | cons a t ih =>
    intro h
    have ⟨ha, ht⟩ := List.nodup_cons.mp h
    rw [pyDedup_cons, ih ht]
    have hfilt : t.filter (fun x => x ≠ a) = t := by
      apply List.filter_eq_self.mpr
      intro x hx
      simp only [ne_eq, decide_eq_true_eq]
      intro hxa; exact ha (hxa ▸ hx)
    rw [hfilt]

theorem pyDedup_eq_nil_iff {α : Type} [DecidableEq α] {l : List α} :
    pyDedup l = [] ↔ l = [] := by
  cases l with
  | nil => simp [pyDedup]
  | cons a t => rw [pyDedup_cons]; simp

theorem pyDedup_filter {α : Type} [DecidableEq α] (p : α → Bool) :
    ∀ (l : List α), pyDedup (l.filter p) = (pyDedup l).filter p := by
  intro l
  induction l with
  | nil => rfl
  | cons x t ih =>
    have hcomm : ∀ (m : List α) (y : α),
        (m.filter p).filter (fun z => z ≠ y) = (m.filter (fun z => z ≠ y)).filter p := by
      intro m y
      rw [List.filter_filter, List.filter_filter]
      apply List.filter_congr
      intro z _
      exact Bool.and_comm _ _
    by_cases hx : p x = true
    · rw [List.filter_cons_of_pos hx, pyDedup_cons, pyDedup_cons, ih,
        List.filter_cons_of_pos hx, ← hcomm]
    · have hx' : p x = false := by revert hx; cases p x <;> simp
      rw [List.filter_cons_of_neg (by simp [hx']), pyDedup_cons,
        List.filter_cons_of_neg (by simp [hx']), ih]
      have h2 : ((pyDedup t).filter p).filter (fun z => z ≠ x) = (pyDedup t).filter p := by
        apply List.filter_eq_self.mpr
        intro z hz
        have hpz := (List.mem_filter.mp hz).2
        simp only [ne_eq, decide_eq_true_eq]
        intro hzx
        rw [hzx, hx'] at hpz
        exact absurd hpz (by simp)
      rw [← h2, hcomm]

theorem pyDedup_idem {α : Type} [DecidableEq α] (l : List α) :
    pyDedup (pyDedup l) = pyDedup l :=
  pyDedup_eq_self (pyDedup_nodup l)

theorem pyDedup_append {α : Type} [DecidableEq α] :
    ∀ (a b : List α),
      pyDedup (a ++ b) = pyDedup a ++ pyDedup (b.filter (fun x => x ∉ a)) := by
  intro a
  induction a with
  | nil =>
    intro b
    simp [pyDedup_nil]
  | cons x a ih =>
    intro b
    rw [List.cons_append, pyDedup_cons, ih b, List.filter_append, pyDedup_cons,
      List.cons_append]
    congr 1
    congr 1
    rw [← pyDedup_filter]
    refine congrArg _ ?_
    rw [List.filter_filter]
    apply List.filter_congr
    intro y _
    by_cases hyx : y = x
    · subst hyx; simp
    · by_cases hya : y ∈ a <;> simp [hyx, hya]

theorem pyDedup_absorb {α : Type} [DecidableEq α] (a b : List α) :
    pyDedup (a ++ pyDedup (a ++ b)) = pyDedup (a ++ b) := by
  rw [pyDedup_append a (pyDedup (a ++ b))]
  have hfa : a.filter (fun x => x ∉ a) = [] := by
    apply List.filter_eq_nil_iff.mpr
    intro x hx
    simp [hx]
  have hinner : (pyDedup (a ++ b)).filter (fun x => x ∉ a)
      = pyDedup (b.filter (fun x => x ∉ a)) := by
    rw [← pyDedup_filter, List.filter_append, hfa, List.nil_append]
  rw [hinner, pyDedup_idem, ← pyDedup_append]

theorem pyDedup_append_of_subset {α : Type} [DecidableEq α] {u b : List α}
    (hu : u.Nodup) (hb : ∀ x ∈ b, x ∈ u) : pyDedup (u ++ b) = u := by
  rw [pyDedup_append]
  have : b.filter (fun x => x ∉ u) = [] := by
    apply List.filter_eq_nil_iff.mpr
    intro x hx
    simp [hb x hx]
  rw [this, pyDedup_nil, List.append_nil, pyDedup_eq_self hu]

theorem pyDedup_self_append {α : Type} [DecidableEq α] {l : List α} (h : l.Nodup) :
    pyDedup (l ++ l) = l :=
  pyDedup_append_of_subset h (fun _ hx => hx)

theorem dget_nil {α : Type} (k : String) : dget ([] : List (String × α)) k = none := rfl

theorem dget_cons {α : Type} (p : String × α) (d : List (String × α)) (k : String) :
    dget (p :: d) k = if p.1 = k then some p.2 else dget d k := by
  by_cases h : p.1 = k <;> simp [dget, List.find?_cons, h]

theorem dget_map_replace_ne {α : Type} (d : List (String × α)) (k k' : String) (v : α)
    (h : k' ≠ k) :
    dget (d.map (fun p => if p.1 == k then (k, v) else p)) k' = dget d k' := by
  induction d with
  | nil => rfl
  | cons p t ih =>
    by_cases hpk : p.1 = k
    · rw [List.map_cons, if_pos (by simp [hpk]), dget_cons, dget_cons,
        if_neg (fun hc : k = k' => h hc.symm), if_neg (fun hc => h (hpk ▸ hc).symm)]
      exact ih
    · rw [List.map_cons, if_neg (by simp [hpk]), dget_cons, dget_cons]
      by_cases hpq : p.1 = k'
      · rw [if_pos hpq, if_pos hpq]
      · rw [if_neg hpq, if_neg hpq]; exact ih

theorem dget_map_replace_self {α : Type} (d : List (String × α)) (k : String) (v : α)
    (h : d.any (fun p => p.1 == k) = true) :
    dget (d.map (fun p => if p.1 == k then (k, v) else p)) k = some v := by
  induction d with
  | nil => simp at h
  | cons p t ih =>
    by_cases hpk : p.1 = k
    · rw [List.map_cons, if_pos (by simp [hpk]), dget_cons, if_pos rfl]
    · rw [List.map_cons, if_neg (by simp [hpk]), dget_cons, if_neg hpk]
      apply ih
      simp only [List.any_cons, Bool.or_eq_true] at h
      rcases h with h | h
      · exact absurd (by simpa using h) hpk
      · exact h

theorem dget_append_right {α : Type} (d e : List (String × α)) (k : String)
    (h : dget d k = none) : dget (d ++ e) k = dget e k := by
  induction d with
  | nil => rfl
  | cons p t ih =>
    rw [dget_cons] at h
    by_cases hpk : p.1 = k
    · rw [if_pos hpk] at h; exact absurd h (by simp)
    · rw [if_neg hpk] at h
      rw [List.cons_append, dget_cons, if_neg hpk]
      exact ih h

theorem dget_eq_none_of_not_any {α : Type} {d : List (String × α)} {k : String}
    (h : d.any (fun p => p.1 == k) = false) : dget d k = none := by
  induction d with
  | nil => rfl
  | cons p t ih =>
    simp only [List.any_cons, Bool.or_eq_false_iff] at h
    rw [dget_cons, if_neg (by simpa using h.1)]
    exact ih h.2

theorem dget_dset_self {α : Type} (d : List (String × α)) (k : String) (v : α) :
    dget (dset d k v) k = some v := by
  unfold dset
  by_cases h : d.any (fun p => p.1 == k) = true
  · rw [if_pos h]; exact dget_map_replace_self d k v h
  · rw [if_neg h]
    have hnone : dget d k = none := dget_eq_none_of_not_any (Bool.eq_false_iff.mpr h)
    rw [dget_append_right d _ k hnone, dget_cons, if_pos rfl]

theorem dget_append {α : Type} (d e : List (String × α)) (k : String) :
    dget (d ++ e) k = match dget d k with
      | some v => some v
      | none => dget e k := by
  induction d with
  | nil => rfl
  | cons p t ih =>
    rw [List.cons_append, dget_cons, dget_cons]
    by_cases hpk : p.1 = k
    · rw [if_pos hpk, if_pos hpk]
    · rw [if_neg hpk, if_neg hpk]; exact ih

theorem dget_dset_ne {α : Type} (d : List (String × α)) (k k' : String) (v : α)
    (h : k' ≠ k) : dget (dset d k v) k' = dget d k' := by
  unfold dset
  by_cases hany : d.any (fun p => p.1 == k) = true
  · rw [if_pos hany]; exact dget_map_replace_ne d k k' v h
  · rw [if_neg hany, dget_append]
    cases hd : dget d k' with
    | some v' => rfl
    | none => rw [dget_cons, if_neg (fun hc => h hc.symm)]; rfl

theorem mem_keys_dset {α : Type} {d : List (String × α)} {k x : String} {v : α}
    (h : x ∈ (dset d k v).map Prod.fst) : x = k ∨ x ∈ d.map Prod.fst := by
  unfold dset at h
  by_cases hany : d.any (fun p => p.1 == k) = true
  · rw [if_pos hany] at h
    obtain ⟨p, hp, hx⟩ := List.mem_map.mp h
    obtain ⟨q, hq, hpq⟩ := List.mem_map.mp hp
    by_cases hqk : q.1 = k
    · left
      rw [← hx, ← hpq, if_pos (by simp [hqk])]
    · right
      rw [← hx, ← hpq, if_neg (by simp [hqk])]
      exact List.mem_map.mpr ⟨q, hq, rfl⟩
  · rw [if_neg hany, List.map_append] at h
    rcases List.mem_append.mp h with h | h
    · exact Or.inr h
    · simp at h
      exact Or.inl h

theorem validate_fields_keys :
    ∀ (fields : List (String × FieldConfig)) (raw acc out : List (String × PyVal)),
      validate_fields raw acc fields = .ok out →
      ∀ kv ∈ out, kv.1 ∈ acc.map Prod.fst ∨ kv.1 ∈ fields.map Prod.fst := by
  intro fields
  induction fields with
  | nil =>
    intro raw acc out h kv hkv
    unfold validate_fields at h
    cases h
    exact Or.inl (List.mem_map.mpr ⟨kv, hkv, rfl⟩)
  | cons fc rest ih =>
    intro raw acc out h kv hkv
    unfold validate_fields at h
    cases hsan : sanitize_field fc.2 (rawGet raw fc.1) with
    | error e => rw [hsan] at h; cases h
    | ok v =>
      rw [hsan] at h
      rcases ih raw (dset acc fc.1 v) out h kv hkv with hin | hin
      · rcases mem_keys_dset hin with heq | hin'
        · exact Or.inr (by simp [heq])
        · exact Or.inl hin'
      · exact Or.inr (by simp [hin])

theorem threshLoop_eq_sum (maxVal : Int) :
    ∀ (pairs : List (Int × Int)),
      threshLoop pairs maxVal = ((pairs.filter (fun p => maxVal ≥ p.1)).map Prod.snd).sum := by
  intro pairs
  induction pairs with
  | nil => simp [threshLoop]
  | cons p rest ih =>
    unfold threshLoop
    by_cases hp : maxVal ≥ p.1
    · rw [if_pos hp, List.filter_cons_of_pos (by simp [hp]), List.map_cons, List.sum_cons, ih]
    · rw [if_neg hp, List.filter_cons_of_neg (by simp [hp]), ih]
      simp

/-! ## Pointwise characterization of the merge pipeline -/

theorem dget_eq_none_of_not_mem_keys {α : Type} {d : List (String × α)} {k : String}
    (h : k ∉ d.map Prod.fst) : dget d k = none := by
  induction d with
  | nil => rfl
  | cons p t ih =>
    simp only [List.map_cons, List.mem_cons, not_or] at h
    rw [dget_cons, if_neg (fun hc => h.1 hc.symm)]
    exact ih h.2

theorem keys_dset_eq {α : Type} (d : List (String × α)) (k : String) (v : α) :
    (dset d k v).map Prod.fst =
      if d.any (fun p => p.1 == k) then d.map Prod.fst else d.map Prod.fst ++ [k] := by
  unfold dset
  by_cases h : d.any (fun p => p.1 == k) = true
  · rw [if_pos h, if_pos h, List.map_map]
    apply List.map_congr_left
    intro p _
    by_cases hp : p.1 = k
    · simp [hp]
    · simp [hp]
  · rw [if_neg h, if_neg h, List.map_append]
    rfl

theorem nodup_keys_dset {α : Type} {d : List (String × α)} (k : String) (v : α)
    (h : (d.map Prod.fst).Nodup) : ((dset d k v).map Prod.fst).Nodup := by
  rw [keys_dset_eq]
  by_cases hany : d.any (fun p => p.1 == k) = true
  · rw [if_pos hany]; exact h
  · rw [if_neg hany]
    have hk : k ∉ d.map Prod.fst := by
      intro hmem
      obtain ⟨p, hp, hpk⟩ := List.mem_map.mp hmem
      exact absurd (List.any_eq_true.mpr ⟨p, hp, by simp [hpk]⟩) hany
    rw [List.nodup_append]
    refine ⟨h, List.nodup_singleton k, ?_⟩
    intro a ha hak
    simp only [List.mem_singleton] at hak
    subst hak
    exact hk ha

theorem update_merge_char :
    ∀ (M acc R : List (String × PyVal)),
      (M.map Prod.fst).Nodup → update_merge acc M = .ok R →
      ∀ k, dget R k = mergedSlot (dget acc k) (dget M k) := by
  intro M
  induction M with
  | nil =>
    intro acc R _ h k
    unfold update_merge at h
    cases h
    simp [mergedSlot, dget_nil]
  | cons kv rest ih =>
    intro acc R hnd h k
    obtain ⟨k₀, v₀⟩ := kv
    simp only [List.map_cons] at hnd
    have hk₀ : k₀ ∉ rest.map Prod.fst := (List.nodup_cons.mp hnd).1
    have hndr : (rest.map Prod.fst).Nodup := (List.nodup_cons.mp hnd).2
    have hrest₀ : dget rest k₀ = none := dget_eq_none_of_not_mem_keys hk₀
    unfold update_merge at h
    cases v₀ with
    | null =>
      replace h : update_merge acc rest = .ok R := h
      by_cases hk : k = k₀
      · subst hk
        rw [ih acc R hndr h k, hrest₀, dget_cons, if_pos rfl]
        rfl
      · rw [ih acc R hndr h k, dget_cons, if_neg (fun hc => hk hc.symm)]
    | list lm =>
      replace h :
          (if listCompat (dget acc k₀) then
            update_merge (dset acc k₀ (.list (pyDedup (exListD (dget acc k₀) ++ lm)))) rest
          else Except.error "TypeError: can only concatenate list to list") = .ok R := h
      by_cases hc : listCompat (dget acc k₀)
      · rw [if_pos hc] at h
        by_cases hk : k = k₀
        · subst hk
          rw [ih _ R hndr h k, hrest₀, dget_dset_self, dget_cons, if_pos rfl]
          rfl
        · rw [ih _ R hndr h k, dget_dset_ne _ _ _ _ hk, dget_cons,
            if_neg (fun hc' => hk hc'.symm)]
      · rw [if_neg hc] at h
        cases h
    | s w =>
      replace h : update_merge (dset acc k₀ (.s w)) rest = .ok R := h
      by_cases hk : k = k₀
      · subst hk
        rw [ih _ R hndr h k, hrest₀, dget_dset_self, dget_cons, if_pos rfl]
        rfl
      · rw [ih _ R hndr h k, dget_dset_ne _ _ _ _ hk, dget_cons,
          if_neg (fun hc' => hk hc'.symm)]
    | i n =>
      replace h : update_merge (dset acc k₀ (.i n)) rest = .ok R := h
      by_cases hk : k = k₀
      · subst hk
        rw [ih _ R hndr h k, hrest₀, dget_dset_self, dget_cons, if_pos rfl]
        rfl
      · rw [ih _ R hndr h k, dget_dset_ne _ _ _ _ hk, dget_cons,
          if_neg (fun hc' => hk hc'.symm)]

theorem update_merge_keys_nodup :
    ∀ (M acc R : List (String × PyVal)),
      (acc.map Prod.fst).Nodup → update_merge acc M = .ok R →
      (R.map Prod.fst).Nodup := by
  intro M
  induction M with
  | nil =>
    intro acc R ha h
    cases h
    exact ha
  | cons kv rest ih =>
    intro acc R ha h
    obtain ⟨k₀, v₀⟩ := kv
    unfold update_merge at h
    cases v₀ with
    | null =>
      exact ih acc R ha h
    | list lm =>
      replace h :
          (if listCompat (dget acc k₀) then
            update_merge (dset acc k₀ (.list (pyDedup (exListD (dget acc k₀) ++ lm)))) rest
          else Except.error "TypeError: can only concatenate list to list") = .ok R := h
      by_cases hc : listCompat (dget acc k₀)
      · rw [if_pos hc] at h
        exact ih _ R (nodup_keys_dset _ _ ha) h
      · rw [if_neg hc] at h
        cases h
    | s w => exact ih _ R (nodup_keys_dset _ _ ha) h
    | i n => exact ih _ R (nodup_keys_dset _ _ ha) h

theorem update_merge_ok :
    ∀ (M acc : List (String × PyVal)),
      (M.map Prod.fst).Nodup →
      (∀ k lm, dget M k = some (.list lm) → listCompat (dget acc k)) →
      ∃ R, update_merge acc M = .ok R := by
  intro M
  induction M with
  | nil =>
    intro acc _ _
    exact ⟨acc, rfl⟩
  | cons kv rest ih =>
    intro acc hnd hcompat
    obtain ⟨k₀, v₀⟩ := kv
    simp only [List.map_cons] at hnd
    have hk₀ : k₀ ∉ rest.map Prod.fst := (List.nodup_cons.mp hnd).1
    have hndr : (rest.map Prod.fst).Nodup := (List.nodup_cons.mp hnd).2
    have hrest₀ : dget rest k₀ = none := dget_eq_none_of_not_mem_keys hk₀
    have htail : ∀ (acc' : List (String × PyVal)),
        (∀ k, k ≠ k₀ → dget acc' k = dget acc k) →
        (∀ k lm, dget rest k = some (.list lm) → listCompat (dget acc' k)) := by
      intro acc' hpres k lm hrk
      have hkk : k ≠ k₀ := by
        intro hc
        rw [hc, hrest₀] at hrk
        cases hrk
      rw [hpres k hkk]
      apply hcompat k lm
      rw [dget_cons, if_neg (fun hc => hkk hc.symm)]
      exact hrk
    cases v₀ with
    | null =>
      obtain ⟨R, hR⟩ := ih acc hndr (htail acc (fun _ _ => rfl))
      exact ⟨R, hR⟩
    | list lm =>
      have hc : listCompat (dget acc k₀) := by
        apply hcompat k₀ lm
        rw [dget_cons, if_pos rfl]
      obtain ⟨R, hR⟩ := ih (dset acc k₀ (.list (pyDedup (exListD (dget acc k₀) ++ lm)))) hndr
        (htail _ (fun k hk => dget_dset_ne _ _ _ _ hk))
      refine ⟨R, ?_⟩
      show (if listCompat (dget acc k₀) then
          update_merge (dset acc k₀ (.list (pyDedup (exListD (dget acc k₀) ++ lm)))) rest
        else Except.error "TypeError: can only concatenate list to list") = .ok R
      rw [if_pos hc]
      exact hR
    | s w =>
      obtain ⟨R, hR⟩ := ih (dset acc k₀ (.s w)) hndr
        (htail _ (fun k hk => dget_dset_ne _ _ _ _ hk))
      exact ⟨R, hR⟩
    | i n =>
      obtain ⟨R, hR⟩ := ih (dset acc k₀ (.i n)) hndr
        (htail _ (fun k hk => dget_dset_ne _ _ _ _ hk))
      exact ⟨R, hR⟩

theorem update_merge_compat :
    ∀ (M acc R : List (String × PyVal)),
      (M.map Prod.fst).Nodup → update_merge acc M = .ok R →
      ∀ k lm, dget M k = some (.list lm) → listCompat (dget acc k) := by
  intro M
  induction M with
  | nil =>
    intro acc R _ _ k lm hk
    cases hk
  | cons kv rest ih =>
    intro acc R hnd h k lm hk
    obtain ⟨k₀, v₀⟩ := kv
    simp only [List.map_cons] at hnd
    have hk₀ : k₀ ∉ rest.map Prod.fst := (List.nodup_cons.mp hnd).1
    have hndr : (rest.map Prod.fst).Nodup := (List.nodup_cons.mp hnd).2
    unfold update_merge at h
    rw [dget_cons] at hk
    by_cases hkk : k₀ = k
    · rw [if_pos hkk] at hk
      injection hk with hv
      subst hkk
      subst hv
      replace h :
          (if listCompat (dget acc k₀) then
            update_merge (dset acc k₀ (.list (pyDedup (exListD (dget acc k₀) ++ lm)))) rest
          else Except.error "TypeError: can only concatenate list to list") = .ok R := h
      by_cases hc : listCompat (dget acc k₀)
      · exact hc
      · rw [if_neg hc] at h
        cases h
    · rw [if_neg hkk] at hk
      have hkne : k ≠ k₀ := fun hc => hkk hc.symm
      cases v₀ with
      | null => exact ih acc R hndr h k lm hk
      | list lm' =>
        replace h :
            (if listCompat (dget acc k₀) then
              update_merge (dset acc k₀ (.list (pyDedup (exListD (dget acc k₀) ++ lm')))) rest
            else Except.error "TypeError: can only concatenate list to list") = .ok R := h
        by_cases hc : listCompat (dget acc k₀)
        · rw [if_pos hc] at h
          have := ih _ R hndr h k lm hk
          rwa [dget_dset_ne _ _ _ _ hkne] at this
        · rw [if_neg hc] at h
          cases h
      | s w =>
        have := ih _ R hndr h k lm hk
        rwa [dget_dset_ne _ _ _ _ hkne] at this
      | i n =>
        have := ih _ R hndr h k lm hk
        rwa [dget_dset_ne _ _ _ _ hkne] at this

theorem save_merge_char :
    ∀ (N existing acc R : List (String × PyVal)),
      (N.map Prod.fst).Nodup → save_merge existing acc N = .ok R →
      ∀ k, dget R k = saveVal (dget existing k) (dget acc k) (dget N k) := by
  intro N
  induction N with
  | nil =>
    intro existing acc R _ h k
    cases h
    simp [saveVal, dget_nil]
  | cons kv rest ih =>
    intro existing acc R hnd h k
    obtain ⟨k₀, v₀⟩ := kv
    simp only [List.map_cons] at hnd
    have hk₀ : k₀ ∉ rest.map Prod.fst := (List.nodup_cons.mp hnd).1
    have hndr : (rest.map Prod.fst).Nodup := (List.nodup_cons.mp hnd).2
    have hrest₀ : dget rest k₀ = none := dget_eq_none_of_not_mem_keys hk₀
    unfold save_merge at h
    cases v₀ with
    | null =>
      replace h : save_merge existing acc rest = .ok R := h
      by_cases hk : k = k₀
      · subst hk
        rw [ih existing acc R hndr h k, hrest₀, dget_cons, if_pos rfl]
        rfl
      · rw [ih existing acc R hndr h k, dget_cons, if_neg (fun hc => hk hc.symm)]
    | s w =>
      replace h :
          (if pstrip w = "" then save_merge existing acc rest
          else save_merge existing (dset acc k₀ (.s w)) rest) = .ok R := h
      by_cases hb : pstrip w = ""
      · rw [if_pos hb] at h
        by_cases hk : k = k₀
        · subst hk
          rw [ih existing acc R hndr h k, hrest₀, dget_cons, if_pos rfl]
          simp [saveVal, hb]
        · rw [ih existing acc R hndr h k, dget_cons, if_neg (fun hc => hk hc.symm)]
      · rw [if_neg hb] at h
        by_cases hk : k = k₀
        · subst hk
          rw [ih existing _ R hndr h k, hrest₀, dget_dset_self, dget_cons, if_pos rfl]
          simp [saveVal, hb]
        · rw [ih existing _ R hndr h k, dget_dset_ne _ _ _ _ hk, dget_cons,
            if_neg (fun hc => hk hc.symm)]
    | list lm =>
      replace h :
          (if listCompat (dget existing k₀) then
            save_merge existing
              (dset acc k₀ (.list (pyDedup (exListD (dget existing k₀) ++ lm)))) rest
          else Except.error "TypeError: can only concatenate list to list") = .ok R := h
      by_cases hc : listCompat (dget existing k₀)
      · rw [if_pos hc] at h
        by_cases hk : k = k₀
        · subst hk
          rw [ih existing _ R hndr h k, hrest₀, dget_dset_self, dget_cons, if_pos rfl]
          rfl
        · rw [ih existing _ R hndr h k, dget_dset_ne _ _ _ _ hk, dget_cons,
            if_neg (fun hc' => hk hc'.symm)]
      · rw [if_neg hc] at h
        cases h
    | i n =>
      replace h : save_merge existing (dset acc k₀ (.s (pyStr (.i n)))) rest = .ok R := h
      by_cases hk : k = k₀
      · subst hk
        rw [ih existing _ R hndr h k, hrest₀, dget_dset_self, dget_cons, if_pos rfl]
        rfl
      · rw [ih existing _ R hndr h k, dget_dset_ne _ _ _ _ hk, dget_cons,
          if_neg (fun hc' => hk hc'.symm)]

theorem save_merge_keys_nodup :
    ∀ (N existing acc R : List (String × PyVal)),
      (acc.map Prod.fst).Nodup → save_merge existing acc N = .ok R →
      (R.map Prod.fst).Nodup := by
  intro N
  induction N with
  | nil =>
    intro existing acc R ha h
    cases h
    exact ha
  | cons kv rest ih =>
    intro existing acc R ha h
    obtain ⟨k₀, v₀⟩ := kv
    unfold save_merge at h
    cases v₀ with
    | null => exact ih existing acc R ha h
    | s w =>
      replace h :
          (if pstrip w = "" then save_merge existing acc rest
          else save_merge existing (dset acc k₀ (.s w)) rest) = .ok R := h
      by_cases hb : pstrip w = ""
      · rw [if_pos hb] at h
        exact ih existing acc R ha h
      · rw [if_neg hb] at h
        exact ih existing _ R (nodup_keys_dset _ _ ha) h
    | list lm =>
      replace h :
          (if listCompat (dget existing k₀) then
            save_merge existing
              (dset acc k₀ (.list (pyDedup (exListD (dget existing k₀) ++ lm)))) rest
          else Except.error "TypeError: can only concatenate list to list") = .ok R := h
      by_cases hc : listCompat (dget existing k₀)
      · rw [if_pos hc] at h
        exact ih existing _ R (nodup_keys_dset _ _ ha) h
      · rw [if_neg hc] at h
        cases h
    | i n => exact ih existing _ R (nodup_keys_dset _ _ ha) h

theorem save_merge_ok :
    ∀ (N existing acc : List (String × PyVal)),
      (N.map Prod.fst).Nodup →
      (∀ k lm, dget N k = some (.list lm) → listCompat (dget existing k)) →
      ∃ R, save_merge existing acc N = .ok R := by
  intro N
  induction N with
  | nil =>
    intro existing acc _ _
    exact ⟨acc, rfl⟩
  | cons kv rest ih =>
    intro existing acc hnd hcompat
    obtain ⟨k₀, v₀⟩ := kv
    simp only [List.map_cons] at hnd
    have hk₀ : k₀ ∉ rest.map Prod.fst := (List.nodup_cons.mp hnd).1
    have hndr : (rest.map Prod.fst).Nodup := (List.nodup_cons.mp hnd).2
    have hrest₀ : dget rest k₀ = none := dget_eq_none_of_not_mem_keys hk₀
    have htail : ∀ k lm, dget rest k = some (.list lm) → listCompat (dget existing k) := by
      intro k lm hrk
      have hkk : k ≠ k₀ := by
        intro hc
        rw [hc, hrest₀] at hrk
        cases hrk
      apply hcompat k lm
      rw [dget_cons, if_neg (fun hc => hkk hc.symm)]
      exact hrk
    cases v₀ with
    | null =>
      obtain ⟨R, hR⟩ := ih existing acc hndr htail
      exact ⟨R, hR⟩
    | s w =>
      by_cases hb : pstrip w = ""
      · obtain ⟨R, hR⟩ := ih existing acc hndr htail
        refine ⟨R, ?_⟩
        show (if pstrip w = "" then save_merge existing acc rest
          else save_merge existing (dset acc k₀ (.s w)) rest) = .ok R
        rw [if_pos hb]
        exact hR
      · obtain ⟨R, hR⟩ := ih existing (dset acc k₀ (.s w)) hndr htail
        refine ⟨R, ?_⟩
        show (if pstrip w = "" then save_merge existing acc rest
          else save_merge existing (dset acc k₀ (.s w)) rest) = .ok R
        rw [if_neg hb]
        exact hR
    | list lm =>
      have hc : listCompat (dget existing k₀) := by
        apply hcompat k₀ lm
        rw [dget_cons, if_pos rfl]
      obtain ⟨R, hR⟩ := ih existing
        (dset acc k₀ (.list (pyDedup (exListD (dget existing k₀) ++ lm)))) hndr htail
      refine ⟨R, ?_⟩
      show (if listCompat (dget existing k₀) then
          save_merge existing
            (dset acc k₀ (.list (pyDedup (exListD (dget existing k₀) ++ lm)))) rest
        else Except.error "TypeError: can only concatenate list to list") = .ok R
      rw [if_pos hc]
      exact hR
    | i n =>
      obtain ⟨R, hR⟩ := ih existing (dset acc k₀ (.s (pyStr (.i n)))) hndr htail
      exact ⟨R, hR⟩

theorem keys_persist_sublist :
    ∀ (d : List (String × PyVal)),
      List.Sublist ((persist_filter d).map Prod.fst) (d.map Prod.fst) := by
  intro d
  induction d with
  | nil => simp [persist_filter]
  | cons p t ih =>
    obtain ⟨k₀, v₀⟩ := p
    unfold persist_filter
    rw [List.filterMap_cons]
    unfold persist_filter at ih
    cases v₀ with
    | null => exact List.Sublist.cons _ ih
    | i n => exact List.Sublist.cons _ ih
    | s w =>
      dsimp only
      by_cases hb : pstrip w = ""
      · rw [if_pos hb]
        exact List.Sublist.cons _ ih
      · rw [if_neg hb, List.map_cons]
        exact List.Sublist.cons₂ _ ih
    | list l =>
      dsimp only
      by_cases he : l.isEmpty
      · rw [if_pos he]
        exact List.Sublist.cons _ ih
      · rw [if_neg he, List.map_cons]
        exact List.Sublist.cons₂ _ ih

theorem persist_filter_char :
    ∀ (d : List (String × PyVal)), (d.map Prod.fst).Nodup →
      ∀ k, dget (persist_filter d) k = keepVal (dget d k) := by
  intro d
  induction d with
  | nil =>
    intro _ k
    simp [persist_filter, dget_nil, keepVal]
  | cons p t ih =>
    intro hnd k
    obtain ⟨k₀, v₀⟩ := p
    simp only [List.map_cons] at hnd
    have hk₀ : k₀ ∉ t.map Prod.fst := (List.nodup_cons.mp hnd).1
    have hndt : (t.map Prod.fst).Nodup := (List.nodup_cons.mp hnd).2
    have hgone : dget (persist_filter t) k₀ = none :=
      dget_eq_none_of_not_mem_keys (fun hc => hk₀ ((keys_persist_sublist t).subset hc))
    unfold persist_filter
    rw [List.filterMap_cons]
    unfold persist_filter at ih hgone
    cases v₀ with
    | null =>
      dsimp only
      by_cases hk : k = k₀
      · subst hk
        rw [hgone, dget_cons, if_pos rfl]
        rfl
      · rw [ih hndt k, dget_cons, if_neg (fun hc => hk hc.symm)]
    | i n =>
      dsimp only
      by_cases hk : k = k₀
      · subst hk
        rw [hgone, dget_cons, if_pos rfl]
        rfl
      · rw [ih hndt k, dget_cons, if_neg (fun hc => hk hc.symm)]
    | s w =>
      dsimp only
      by_cases hb : pstrip w = ""
      · rw [if_pos hb]
        by_cases hk : k = k₀
        · subst hk
          rw [hgone, dget_cons, if_pos rfl]
          simp [keepVal, hb]
        · rw [ih hndt k, dget_cons, if_neg (fun hc => hk hc.symm)]
      · rw [if_neg hb]
        by_cases hk : k = k₀
        · subst hk
          rw [dget_cons, if_pos rfl, dget_cons, if_pos rfl]
          simp [keepVal, hb]
        · rw [dget_cons, if_neg (fun hc => hk hc.symm), ih hndt k, dget_cons,
            if_neg (fun hc => hk hc.symm)]
    | list l =>
      dsimp only
      by_cases he : l.isEmpty
      · rw [if_pos he]
        by_cases hk : k = k₀
        · subst hk
          rw [hgone, dget_cons, if_pos rfl]
          simp [keepVal, he]
        · rw [ih hndt k, dget_cons, if_neg (fun hc => hk hc.symm)]
      · rw [if_neg he]
        by_cases hk : k = k₀
        · subst hk
          rw [dget_cons, if_pos rfl, dget_cons, if_pos rfl]
          simp [keepVal, he]
        · rw [dget_cons, if_neg (fun hc => hk hc.symm), ih hndt k, dget_cons,
            if_neg (fun hc => hk hc.symm)]

theorem persist_filter_wf :
    ∀ (d : List (String × PyVal)) (kv : String × PyVal),
      kv ∈ persist_filter d → WFVal kv.2 := by
  intro d kv hkv
  obtain ⟨p, _, hf⟩ := List.mem_filterMap.mp hkv
  obtain ⟨k₀, v₀⟩ := p
  cases v₀ with
  | null => cases hf
  | i n => cases hf
  | s w =>
    dsimp only at hf
    by_cases hb : pstrip w = ""
    · rw [if_pos hb] at hf
      cases hf
    · rw [if_neg hb] at hf
      injection hf with hkv'
      subst hkv'
      exact ⟨pstrip_idem w, hb⟩
  | list l =>
    dsimp only at hf
    by_cases he : l.isEmpty
    · rw [if_pos he] at hf
      cases hf
    · rw [if_neg he] at hf
      injection hf with hkv'
      subst hkv'
      refine ⟨?_, pyDedup_nodup _, ?_⟩
      · rw [Ne, pyDedup_eq_nil_iff, List.map_eq_nil_iff]
        intro hl
        rw [hl] at he
        exact he rfl
      · intro e he'
        have := mem_pyDedup.mp he'
        obtain ⟨e₀, _, heq⟩ := List.mem_map.mp this
        rw [← heq]
        rfl

theorem dget_eq_none_of_all_keys_ne {d : List (String × PyVal)} {k : String}
    (h : ∀ kv ∈ d, kv.1 ≠ k) : dget d k = none := by
  apply dget_eq_none_of_not_mem_keys
  intro hmem
  obtain ⟨kv, hkv, hfst⟩ := List.mem_map.mp hmem
  exact h kv hkv hfst

theorem classify_lead_cases (metadata : List (String × PyVal)) (schema : FieldSchema) :
    classify_lead metadata schema = "Hot" ∨ classify_lead metadata schema = "Warm"
      ∨ classify_lead metadata schema = "Cold" := by
  have hdef : classify_lead metadata schema =
      (if leadScore metadata schema ≥ tierCut schema "Hot" 3 then "Hot"
       else if leadScore metadata schema ≥ tierCut schema "Warm" 1 then "Warm" else "Cold") := rfl
  rw [hdef]
  split
  · exact Or.inl rfl
  · split
    · exact Or.inr (Or.inl rfl)
    · exact Or.inr (Or.inr rfl)

theorem keepVal_saveVal_tier (a cur : Option PyVal) (c : String)
    (hc : c = "Hot" ∨ c = "Warm" ∨ c = "Cold") :
    keepVal (saveVal a cur (some (.s c))) = some (.s c) := by
  have key : ∀ (w : String), pstrip w = w → w ≠ "" →
      keepVal (saveVal a cur (some (.s w))) = some (.s w) := by
    intro w hw hne
    show keepVal (if pstrip w = "" then cur else some (.s w)) = some (.s w)
    rw [hw, if_neg hne]
    show (if pstrip w = "" then none else some (PyVal.s (pstrip w))) = some (.s w)
    rw [hw, if_neg hne]
  rcases hc with hc | hc | hc <;> subst hc <;> exact key _ (by decide) (by decide)

theorem merge_and_save_char
    (schema : FieldSchema) (P M Q : List (String × PyVal))
    (hPnd : (P.map Prod.fst).Nodup) (hMnd : (M.map Prod.fst).Nodup)
    (hMlc : ∀ kv ∈ M, kv.1 ≠ "lead_classification")
    (h : merge_and_save schema P M = .ok Q) :
    ∃ m1, update_merge P M = .ok m1
      ∧ (∀ k, dget m1 k = mergedSlot (dget P k) (dget M k))
      ∧ (∀ k, k ≠ "lead_classification" → dget Q k = finalSlot (dget P k) (dget M k))
      ∧ dget Q "lead_classification" = some (.s (classify_lead m1 schema))
      ∧ ProfileWF Q := by
  unfold merge_and_save at h
  cases hu : update_merge P M with
  | error e => rw [hu] at h; cases h
  | ok m1 =>
    rw [hu] at h
    replace h :
        (match save_merge P P
            (dset m1 "lead_classification" (.s (classify_lead m1 schema))) with
          | .error e => (Except.error e : Except String (List (String × PyVal)))
          | .ok m2 => .ok (persist_filter m2)) = .ok Q := h
    cases hs : save_merge P P (dset m1 "lead_classification" (.s (classify_lead m1 schema))) with
    | error e =>
      rw [hs] at h
      cases h
    | ok m2 =>
      rw [hs] at h
      replace h : (Except.ok (persist_filter m2) : Except String (List (String × PyVal)))
          = .ok Q := h
      injection h with h
      subst h
      have hm1nd : (m1.map Prod.fst).Nodup := update_merge_keys_nodup M P m1 hPnd hu
      have hm1cnd : ((dset m1 "lead_classification"
          (.s (classify_lead m1 schema))).map Prod.fst).Nodup := nodup_keys_dset _ _ hm1nd
      have hm2nd : (m2.map Prod.fst).Nodup := save_merge_keys_nodup _ P P m2 hPnd hs
      have hMlcnone : dget M "lead_classification" = none := dget_eq_none_of_all_keys_ne hMlc
      have hm1char := update_merge_char M P m1 hMnd hu
      have hschar := save_merge_char _ P P m2 hm1cnd hs
      refine ⟨m1, rfl, hm1char, ?_, ?_, ?_⟩
      · intro k hk
        rw [persist_filter_char m2 hm2nd k, hschar k,
          dget_dset_ne _ _ _ _ hk, hm1char k]
        rfl
      · rw [persist_filter_char m2 hm2nd _, hschar _, dget_dset_self]
        exact keepVal_saveVal_tier _ _ _ (classify_lead_cases m1 schema)
      · constructor
        · exact (keys_persist_sublist m2).nodup hm2nd
        · exact persist_filter_wf m2

theorem merge_and_save_ok
    (schema : FieldSchema) (P M : List (String × PyVal))
    (hPnd : (P.map Prod.fst).Nodup) (hMnd : (M.map Prod.fst).Nodup)
    (hcompat : ∀ k lm, dget M k = some (.list lm) → listCompat (dget P k)) :
    ∃ Q, merge_and_save schema P M = .ok Q := by
  obtain ⟨m1, hm1⟩ := update_merge_ok M P hMnd hcompat
  have hm1char := update_merge_char M P m1 hMnd hm1
  have hm1nd : (m1.map Prod.fst).Nodup := update_merge_keys_nodup M P m1 hPnd hm1
  have hsavecompat : ∀ k lm,
      dget (dset m1 "lead_classification" (.s (classify_lead m1 schema))) k
        = some (.list lm) → listCompat (dget P k) := by
    intro k lm hk
    by_cases hlc : k = "lead_classification"
    · subst hlc
      rw [dget_dset_self] at hk
      cases hk
    · rw [dget_dset_ne _ _ _ _ hlc, hm1char k] at hk
      cases hM : dget M k with
      | none =>
        rw [hM] at hk
        exact Or.inr ⟨lm, hk⟩
      | some v =>
        rw [hM] at hk
        cases v with
        | null => exact Or.inr ⟨lm, hk⟩
        | s w => cases hk
        | i n => cases hk
        | list lm' => exact hcompat k lm' hM
  obtain ⟨m2, hm2⟩ := save_merge_ok _ P P (nodup_keys_dset _ _ hm1nd) hsavecompat
  refine ⟨persist_filter m2, ?_⟩
  unfold merge_and_save
  rw [hm1]
  show (match save_merge P P
      (dset m1 "lead_classification" (.s (classify_lead m1 schema))) with
    | .error e => (Except.error e : Except String (List (String × PyVal)))
    | .ok m2 => .ok (persist_filter m2)) = .ok (persist_filter m2)
  rw [hm2]

theorem mem_of_dget {α : Type} {d : List (String × α)} {k : String} {v : α}
    (h : dget d k = some v) : ∃ p ∈ d, p.2 = v := by
  unfold dget at h
  cases hf : d.find? (fun p => p.1 == k) with
  | none => rw [hf] at h; cases h
  | some p =>
    rw [hf] at h
    injection h with h
    exact ⟨p, List.mem_of_find?_eq_some hf, h⟩

theorem optwf_dget {P : List (String × PyVal)} (hP : ∀ kv ∈ P, WFVal kv.2) (k : String) :
    OptWF (dget P k) := by
  cases hd : dget P k with
  | none => exact trivial
  | some v =>
    obtain ⟨p, hp, hpv⟩ := mem_of_dget hd
    exact hpv ▸ hP p hp

theorem optsan_dget {M : List (String × PyVal)} (hM : ∀ kv ∈ M, SanitizedVal kv.2)
    (k : String) : OptSan (dget M k) := by
  cases hd : dget M k with
  | none => exact trivial
  | some v =>
    obtain ⟨p, hp, hpv⟩ := mem_of_dget hd
    exact hpv ▸ hM p hp

theorem map_stringify_id {l : List PyScalar} (h : ∀ e ∈ l, isStrScalar e = true) :
    l.map (fun e => PyScalar.s (scalarStr e)) = l := by
  induction l with
  | nil => rfl
  | cons e t ih =>
    have he := h e (by simp)
    cases e with
    | s w =>
      rw [List.map_cons, ih (fun x hx => h x (by simp [hx]))]
      rfl
    | null => cases he
    | i n => cases he

theorem exListD_allstr {pk : Option PyVal} (hpk : OptWF pk) :
    ∀ e ∈ exListD pk, isStrScalar e = true := by
  cases pk with
  | none => intro e he; cases he
  | some v =>
    cases v with
    | list l => exact hpk.2.2
    | null => cases hpk
    | i n => cases hpk
    | s w => intro e he; cases he

theorem exListD_nodup {pk : Option PyVal} (hpk : OptWF pk) : (exListD pk).Nodup := by
  cases pk with
  | none => exact List.nodup_nil
  | some v =>
    cases v with
    | list l => exact hpk.2.1
    | null => cases hpk
    | i n => cases hpk
    | s w => exact List.nodup_nil

theorem keepVal_wf {pk : Option PyVal} (hpk : OptWF pk) : keepVal pk = pk := by
  cases pk with
  | none => rfl
  | some v =>
    cases v with
    | null => cases hpk
    | i n => cases hpk
    | s w =>
      obtain ⟨hw, hne⟩ := hpk
      show (if pstrip w = "" then none else some (PyVal.s (pstrip w))) = some (.s w)
      rw [hw, if_neg hne]
    | list l =>
      obtain ⟨hne, hnd, hstr⟩ := hpk
      show (if l.isEmpty then none
        else some (PyVal.list (pyDedup (l.map (fun e => PyScalar.s (scalarStr e))))))
          = some (.list l)
      rw [if_neg (by simpa [List.isEmpty_iff] using hne), map_stringify_id hstr,
        pyDedup_eq_self hnd]

theorem saveVal_self_wf {pk : Option PyVal} (hpk : OptWF pk) : saveVal pk pk pk = pk := by
  cases pk with
  | none => rfl
  | some v =>
    cases v with
    | null => cases hpk
    | i n => cases hpk
    | s w =>
      obtain ⟨hw, hne⟩ := hpk
      show (if pstrip w = "" then some (PyVal.s w) else some (.s w)) = some (.s w)
      split <;> rfl
    | list l =>
      obtain ⟨hne, hnd, hstr⟩ := hpk
      show some (PyVal.list (pyDedup (exListD (some (.list l)) ++ l))) = some (.list l)
      show some (PyVal.list (pyDedup (l ++ l))) = some (.list l)
      rw [pyDedup_self_append hnd]

theorem mergedSlot_nullish {pk mk : Option PyVal}
    (hmk : mk = none ∨ mk = some .null) : mergedSlot pk mk = pk := by
  rcases hmk with hmk | hmk <;> subst hmk <;> rfl

theorem finalSlot_nullish {pk mk : Option PyVal} (hpk : OptWF pk)
    (hmk : mk = none ∨ mk = some .null) : finalSlot pk mk = pk := by
  unfold finalSlot
  rw [mergedSlot_nullish hmk, saveVal_self_wf hpk, keepVal_wf hpk]

theorem finalSlot_s {pk : Option PyVal} (hpk : OptWF pk) (w : String) :
    finalSlot pk (some (.s w)) = if pstrip w = "" then pk else some (.s (pstrip w)) := by
  unfold finalSlot
  show keepVal (saveVal pk pk (some (.s w))) = _
  show keepVal (if pstrip w = "" then pk else some (.s w)) = _
  by_cases hb : pstrip w = ""
  · rw [if_pos hb, if_pos hb, keepVal_wf hpk]
  · rw [if_neg hb, if_neg hb]
    show (if pstrip w = "" then none else some (PyVal.s (pstrip w))) = _
    rw [if_neg hb]

theorem finalSlot_i (pk : Option PyVal) (n : Int) :
    finalSlot pk (some (.i n)) = keepVal (some (.s (pyStr (.i n)))) := rfl

theorem finalSlot_list {pk : Option PyVal} {lm : List PyScalar} (hpk : OptWF pk)
    (hlm : ∀ e ∈ lm, isStrScalar e = true) :
    finalSlot pk (some (.list lm)) =
      (if pyDedup (exListD pk ++ lm) = [] then none
       else some (.list (pyDedup (exListD pk ++ lm)))) := by
  unfold finalSlot
  show keepVal (saveVal pk pk (some (.list (pyDedup (exListD pk ++ lm))))) = _
  show keepVal (some (.list (pyDedup (exListD pk ++ pyDedup (exListD pk ++ lm))))) = _
  rw [pyDedup_absorb]
  set u := pyDedup (exListD pk ++ lm) with hu
  have hustr : ∀ e ∈ u, isStrScalar e = true := by
    intro e he
    rcases List.mem_append.mp (mem_pyDedup.mp (hu ▸ he)) with h | h
    · exact exListD_allstr hpk e h
    · exact hlm e h
  show (if u.isEmpty then none
    else some (PyVal.list (pyDedup (u.map (fun e => PyScalar.s (scalarStr e)))))) = _
  by_cases he : u = []
  · rw [if_pos (by simp [he]), if_pos he]
  · rw [if_neg (by simpa [List.isEmpty_iff] using he), if_neg he,
      map_stringify_id hustr, pyDedup_eq_self (pyDedup_nodup _)]

theorem finalSlot_idem {pk mk : Option PyVal} (hpk : OptWF pk) (hmk : OptSan mk) :
    finalSlot (finalSlot pk mk) mk = finalSlot pk mk := by
  cases mk with
  | none => rw [finalSlot_nullish hpk (Or.inl rfl), finalSlot_nullish hpk (Or.inl rfl)]
  | some v =>
    cases v with
    | null =>
      rw [finalSlot_nullish hpk (Or.inr rfl), finalSlot_nullish hpk (Or.inr rfl)]
    | i n => cases hmk
    | s w =>
      by_cases hb : pstrip w = ""
      · rw [finalSlot_s hpk w, if_pos hb, finalSlot_s hpk w, if_pos hb]
      · rw [finalSlot_s hpk w, if_neg hb]
        have hwf : OptWF (some (PyVal.s (pstrip w))) := ⟨pstrip_idem w, hb⟩
        rw [finalSlot_s hwf w, if_neg hb]
    | list lm =>
      have hlm : ∀ e ∈ lm, isStrScalar e = true := hmk
      rw [finalSlot_list hpk hlm]
      set u := pyDedup (exListD pk ++ lm) with hu
      by_cases he : u = []
      · have he' : pyDedup (exListD pk ++ lm) = [] := hu ▸ he
        have hlmnil : lm = [] := (List.append_eq_nil.mp (pyDedup_eq_nil_iff.mp he')).2
        rw [if_pos he, finalSlot_list (show OptWF none from trivial) hlm,
          if_pos (show pyDedup (exListD (none : Option PyVal) ++ lm) = [] by
            rw [hlmnil]; exact pyDedup_nil)]
      · rw [if_neg he]
        have hwf : OptWF (some (PyVal.list u)) := by
          refine ⟨he, pyDedup_nodup _, ?_⟩
          intro e hme
          rcases List.mem_append.mp (mem_pyDedup.mp (hu ▸ hme)) with h | h
          · exact exListD_allstr hpk e h
          · exact hlm e h
        rw [finalSlot_list hwf hlm]
        have habs : pyDedup (exListD (some (PyVal.list u)) ++ lm) = u := by
          show pyDedup (u ++ lm) = u
          apply pyDedup_append_of_subset (pyDedup_nodup _)
          intro x hx
          exact hu ▸ mem_pyDedup.mpr (List.mem_append.mpr (Or.inr hx))
        rw [habs, if_neg he]

theorem mergedSlot_stab {pk mk : Option PyVal} (hpk : OptWF pk) (hmk : OptSan mk) :
    mergedSlot (finalSlot pk mk) mk = mergedSlot pk mk := by
  cases mk with
  | none => rw [finalSlot_nullish hpk (Or.inl rfl)]
  | some v =>
    cases v with
    | null => rw [finalSlot_nullish hpk (Or.inr rfl)]
    | i n => rfl
    | s w => rfl
    | list lm =>
      have hlm : ∀ e ∈ lm, isStrScalar e = true := hmk
      rw [finalSlot_list hpk hlm]
      set u := pyDedup (exListD pk ++ lm) with hu
      show mergedSlot (if u = [] then none else some (PyVal.list u)) (some (.list lm))
        = mergedSlot pk (some (.list lm))
      by_cases he : u = []
      · have he' : pyDedup (exListD pk ++ lm) = [] := hu ▸ he
        have hlmnil : lm = [] := (List.append_eq_nil.mp (pyDedup_eq_nil_iff.mp he')).2
        rw [if_pos he]
        show some (PyVal.list (pyDedup (exListD none ++ lm)))
          = some (.list (pyDedup (exListD pk ++ lm)))
        rw [he', hlmnil]
        simp [exListD, pyDedup_nil]
      · rw [if_neg he]
        show some (PyVal.list (pyDedup (exListD (some (PyVal.list u)) ++ lm)))
          = some (.list (pyDedup (exListD pk ++ lm)))
        have habs : pyDedup (exListD (some (PyVal.list u)) ++ lm) = u := by
          show pyDedup (u ++ lm) = u
          apply pyDedup_append_of_subset (pyDedup_nodup _)
          intro x hx
          exact hu ▸ mem_pyDedup.mpr (List.mem_append.mpr (Or.inr hx))
        rw [habs, hu]

theorem leadScore_congr (schema : FieldSchema) (a b : List (String × PyVal))
    (h : ∀ fc ∈ schema.metadata_fields, dget a fc.1 = dget b fc.1) :
    leadScore a schema = leadScore b schema := by
  unfold leadScore
  congr 1
  apply List.map_congr_left
  intro fc hfc
  unfold fieldScore
  rw [h fc hfc]

theorem classify_lead_congr (schema : FieldSchema) (a b : List (String × PyVal))
    (h : ∀ fc ∈ schema.metadata_fields, dget a fc.1 = dget b fc.1) :
    classify_lead a schema = classify_lead b schema := by
  have ha : classify_lead a schema =
      (if leadScore a schema ≥ tierCut schema "Hot" 3 then "Hot"
       else if leadScore a schema ≥ tierCut schema "Warm" 1 then "Warm" else "Cold") := rfl
  have hb : classify_lead b schema =
      (if leadScore b schema ≥ tierCut schema "Hot" 3 then "Hot"
       else if leadScore b schema ≥ tierCut schema "Warm" 1 then "Warm" else "Cold") := rfl
  rw [ha, hb, leadScore_congr schema a b h]

theorem tier_wf (m : List (String × PyVal)) (schema : FieldSchema) :
    WFVal (.s (classify_lead m schema)) := by
  rcases classify_lead_cases m schema with hc | hc | hc <;> rw [hc] <;> exact ⟨by decide, by decide⟩

theorem dget_mem {α : Type} {d : List (String × α)} {k : String} {v : α}
    (h : dget d k = some v) : (k, v) ∈ d := by
  unfold dget at h
  cases hf : d.find? (fun p => p.1 == k) with
  | none => rw [hf] at h; cases h
  | some p =>
    rw [hf] at h
    injection h with h
    have hpred := List.find?_some hf
    have hmem := List.mem_of_find?_eq_some hf
    have hpk : p.1 = k := by simpa using hpred
    rw [← hpk, ← h]
    exact hmem

/-! ## Claim theorems -/

/-- C3 (counterexample): the sanitizer does **not** build a range from
the first two of three-or-more matches — on an input with three numeric
matches it returns null, not "£100,000–£200,000". -/
theorem sanitize_range_number_three_matches_counterexample :
    3 ≤ (digitRuns (stripCommas (pyStr (PyVal.s "100000 200000 300000")))).length
      ∧ sanitize_range_number (PyVal.s "100000 200000 300000") = none
      ∧ sanitize_range_number (PyVal.s "100000 200000 300000") ≠ some "£100,000–£200,000" := by
  refine ⟨by decide, by decide, by decide⟩

/-- C3 (amended): the sanitizer extracts the numeric substrings of at
least 3 digits after stripping commas and returns null on zero matches,
a single formatted currency amount on exactly one match, a low-high
range on exactly two matches, and null again on three or more matches;
in particular the three example inputs of the specification behave as
stated. -/
theorem sanitize_range_number_amended :
    (∀ v : PyVal,
      sanitize_range_number v =
        (if pyTruthy v then
          match digitRuns (stripCommas (pyStr v)) with
          | [a] => some ("£" ++ fmtComma (natOfDigits a))
          | [a, b] => some ("£" ++ fmtComma (natOfDigits a) ++ "–£" ++ fmtComma (natOfDigits b))
          | _ => none
        else none))
    ∧ sanitize_range_number (PyVal.s "250,000") = some "£250,000"
    ∧ sanitize_range_number (PyVal.s "between 250000 and 300,000") = some "£250,000–£300,000"
    ∧ sanitize_range_number (PyVal.s "no numbers") = none := by
  refine ⟨?_, by decide, by decide, by decide⟩
  intro v
  unfold sanitize_range_number
  cases hT : pyTruthy v with
  | false => simp
  | true =>
    simp only [Bool.not_true, Bool.false_eq_true, if_neg, if_pos]
    rcases hm : digitRuns (stripCommas (pyStr v)) with _ | ⟨a, _ | ⟨b, _ | ⟨c, rest⟩⟩⟩
    · simp
    · simp
    · simp
    · have e2 : ¬ (rest.length + 1 + 1 + 1 = 2) := by omega
      have e1 : ¬ (rest.length + 1 + 1 + 1 = 1) := by omega
      simp only [List.length_cons]
      rw [if_neg e2, if_neg e1]
      simp

/-- C9 (code_bug): the sanitizer is *not* total on bad data — a
`type`-sanitized field whose raw value is a list with a non-string head
(here `[42]`) makes `sanitize_type` call `.strip()` on an int, raising
`AttributeError`, so `validate_metadata` raises even though the schema
is present. -/
theorem validate_metadata_raises_on_nonstring_list :
    validate_metadata [("property_type", PyVal.list [PyScalar.i 42])] exTypeSchema
      = .error "AttributeError: object has no attribute strip" := by
  rfl

/-- C8 (counterexample): with a schema declaring no fields at all, the
output still contains the key "session_id", which corresponds to no
schema-declared field — so not every key of the sanitized metadata is
schema-declared. -/
theorem validate_metadata_session_id_counterexample :
    validate_metadata [] { metadata_fields := [] } = .ok [("session_id", PyVal.null)]
      ∧ "session_id" ∉ (({ metadata_fields := [] } : FieldSchema)).metadata_fields.map Prod.fst := by
  exact ⟨by rfl, by decide⟩

/-- C8 (amended): every key of the sanitized metadata either is the
always-present "session_id" (copied from the raw input by line 135) or
corresponds to a field declared in the schema; fields absent from the
raw input or not declared are ignored or dropped and no other key is
ever invented. -/
theorem validate_metadata_keys_amended
    (raw : List (String × PyVal)) (schema : FieldSchema) (out : List (String × PyVal))
    (h : validate_metadata raw schema = .ok out) :
    ∀ kv ∈ out, kv.1 = "session_id" ∨ kv.1 ∈ schema.metadata_fields.map Prod.fst := by
  intro kv hkv
  unfold validate_metadata at h
  rcases validate_fields_keys schema.metadata_fields raw _ out h kv hkv with hin | hin
  · left
    simpa [dset] using hin
  · exact Or.inr hin

/-- Witness for the amended C8 at a concrete schema, raw input and
output entry: the budget entry of the sanitized output is
schema-declared. -/
theorem validate_metadata_keys_amended_witness :
    ("budget", PyVal.s "£250,000").1 = "session_id"
      ∨ ("budget", PyVal.s "£250,000").1 ∈ exThreshSchema.metadata_fields.map Prod.fst :=
  validate_metadata_keys_amended [("budget", PyVal.s "250,000")] exThreshSchema
    [("session_id", PyVal.null), ("budget", PyVal.s "£250,000")] (by rfl)
    ("budget", PyVal.s "£250,000") (by simp)

/-- C2 (counterexample): on a profile whose budget upper bound 300000
exceeds both thresholds 100000 and 200000 (scores 1 and 2), the
classifier adds **both** scores — its threshold loop has no break — for
a total of 3, while the claim's "single highest qualifying threshold"
rule yields 2. -/
theorem classify_lead_threshold_counterexample :
    leadScore [("budget", PyVal.s "£300,000")] exThreshSchema = 3
      ∧ claimedThresholdContribution [100000, 200000] [1, 2] 300000 = 2
      ∧ leadScore [("budget", PyVal.s "£300,000")] exThreshSchema
          ≠ claimedThresholdContribution [100000, 200000] [1, 2] 300000 := by
  refine ⟨by decide, by decide, by decide⟩

/-- C2 (amended): for a `range_number` field with a threshold-based
weight table, `classify_lead` extracts the numeric runs from the
profile's comma-stripped formatted string, takes the **last** extracted
value (the upper bound of a well-formed low-high range), and adds the
**sum** of the scores of every threshold not exceeding that value
(thresholds and scores zipped pairwise). -/
theorem classify_lead_threshold_amended
    (key : String) (ts ss : List Int) (v r : String)
    (hv : v ≠ "")
    (hr : (digitRuns (stripCommas v)).getLast? = some r) :
    leadScore [(key, PyVal.s v)]
        { metadata_fields := [(key, ⟨some "range_number", none, some (Weights.thresh ts ss)⟩)] }
      = (((ts.zip ss).filter (fun p => (natOfDigits r : Int) ≥ p.1)).map Prod.snd).sum := by
  have hT : pyTruthy (PyVal.s v) = true := by simp [pyTruthy, hv]
  unfold leadScore fieldScore
  simp only [List.map_cons, List.map_nil, List.sum_cons, List.sum_nil, add_zero,
    dget_cons, if_pos, eq_self_iff_true, ite_true, Option.getD_some, hT,
    Bool.not_true, Bool.false_eq_true, if_false, pyStr]
  rw [hr]
  exact threshLoop_eq_sum (natOfDigits r) (ts.zip ss)

/-- Witness for the amended C2 at the schema and profile of the
counterexample: the contribution is the sum 1 + 2 of both qualifying
scores. -/
theorem classify_lead_threshold_amended_witness :
    leadScore [("budget", PyVal.s "£300,000")]
        { metadata_fields :=
            [("budget", ⟨some "range_number", none, some (Weights.thresh [100000, 200000] [1, 2])⟩)] }
      = ((([100000, 200000].zip [1, 2]).filter
            (fun p => (natOfDigits "300000" : Int) ≥ p.1)).map Prod.snd).sum :=
  classify_lead_threshold_amended "budget" [100000, 200000] [1, 2] "£300,000" "300000"
    (by decide) (by decide)

/-- C7 (counterexample): a clarifying reply containing the listing word
"property" but no known identifier or address is accepted by the source
in strict mode (the benign-clarification early accept fires), while the
claim's stated procedure rejects it — so the source does not implement
the claimed procedure. -/
theorem grounding_clarification_counterexample :
    is_reply_grounded "Would a smaller property also work for you?" [exListing] true = true
      ∧ claimedGroundingProcedure "Would a smaller property also work for you?" [exListing] true
          = false := by
  exact ⟨by decide, by decide⟩

/-- C7 (amended): the verifier implements the claimed decision procedure
extended with one extra rule — a reply containing "would a" and "also
work for you" (case-insensitive) is accepted unconditionally before the
known-fact and vocabulary checks. -/
theorem grounding_procedure_amended :
    ∀ (reply : String) (items : List Listing) (must_match : Bool),
      is_reply_grounded reply items must_match = amendedGroundingProcedure reply items must_match :=
  fun _ _ _ => rfl

/-- C10: with `must_match` left at its default `False` — which is how
the turn orchestrator invokes it — the verifier accepts every reply for
every fact set, so the hallucination-fallback branch never replaces the
reply. -/
theorem grounding_default_always_accepts :
    ∀ (reply : String) (items : List Listing),
      is_reply_grounded reply items = true ∧ applied_reply reply items = reply := by
  intro reply items
  have h : is_reply_grounded reply items = true := by
    unfold is_reply_grounded
    split
    · rfl
    · dsimp only
      split
      · rfl
      · split
        · rfl
        · split <;> rfl
  exact ⟨h, by unfold applied_reply; rw [h]; simp⟩

/-- C1 (code_bug): with a complete profile and a non-empty fact list,
`build_prompt_or` does not emit a facts message at all — it calls
`format_similar_items_or(similar_items)` without the required
`field_schema` argument and raises `TypeError`.  Called as its
signature demands, `format_similar_items_or` would have produced the
listing of the supplied facts with the closing anti-invention
directive. -/
theorem build_prompt_or_missing_argument_bug :
    build_prompt_or "SYS" "msg" [] [exListing] exCompleteProfile exDisplaySchema
        = .error "TypeError: format_similar_items_or() missing 1 required positional argument: field_schema"
      ∧ strContains (format_similar_items_or [exListing] exDisplaySchema) "12 King Street" = true
      ∧ strContains (format_similar_items_or [exListing] exDisplaySchema)
          "⚠️ The assistant must ONLY reference these listings. Do not invent additional options."
          = true := by
  refine ⟨by rfl, by decide, by decide⟩

/-- C4: facts reach the prompt only under the eligibility gate — the
fact set passed to the assembler is non-empty only when location,
urgency and budget all hold valid values in the re-read profile — and
whenever any of the three is missing or empty the assembled context
exists and contains the user-role no-facts message (which states that
no facts are available and that the generator must not invent any). -/
theorem facts_gated_on_profile :
    (∀ (md : List (String × PyVal)) (current previous : List Listing),
      similar_items_for_prompt md current previous ≠ [] → inject_similar_items md = true)
    ∧ (∀ (md : List (String × PyVal)) (history : List HistoryItem)
        (current previous : List Listing) (message sys : String) (schema : FieldSchema),
        inject_similar_items md = false →
        ∃ ctx, handler_context md history current previous message sys schema = Except.ok ctx
          ∧ Message.mk "user" noListingsText ∈ ctx) := by
  constructor
  · intro md current previous hne
    unfold similar_items_for_prompt at hne
    cases hinj : inject_similar_items md with
    | true => rfl
    | false => rw [hinj] at hne; simp at hne
  · intro md history current previous message sys schema hinj
    have hfp : similar_items_for_prompt md current previous = [] := by
      unfold similar_items_for_prompt
      rw [hinj]
      simp
    unfold handler_context
    rw [hfp]
    unfold build_prompt_or
    simp only [List.isEmpty_nil, if_true, ite_true]
    refine ⟨_, rfl, ?_⟩
    split <;> split <;> simp

/-- Witness for C4: with only a location set (urgency and budget
missing) and a retrieved fact available, the context exists and carries
the no-facts message. -/
theorem facts_gated_on_profile_witness :
    ∃ ctx, handler_context [("location", PyVal.s "Leeds")] [] [exListing] [] "hi" "SYS"
        exDisplaySchema = Except.ok ctx
      ∧ Message.mk "user" noListingsText ∈ ctx :=
  facts_gated_on_profile.2 [("location", PyVal.s "Leeds")] [] [exListing] [] "hi" "SYS"
    exDisplaySchema (by decide)

/-- C5: the profile merge is idempotent.  For every stored profile `P`
(unique keys, well-formed values), every sanitized incoming metadata `M`
(unique keys, null/string/string-list values, no derived
`lead_classification` key) and every schema that does not score the
derived `lead_classification` tag, if merging `M` into `P` persists the
profile `Q`, then merging the same `M` into `Q` succeeds and persists a
profile with exactly the same value at every key — in particular list
fields, compared as sets or even as ordered lists, are unchanged. -/
theorem merge_idempotent
    (schema : FieldSchema) (P M Q : List (String × PyVal))
    (hP : ProfileWF P) (hM : SanitizedWF M) (hS : SchemaNoLC schema)
    (h : merge_and_save schema P M = .ok Q) :
    ∃ Q2, merge_and_save schema Q M = .ok Q2 ∧ ∀ k, dget Q2 k = dget Q k := by
  obtain ⟨hPnd, hPwf⟩ := hP
  obtain ⟨hMnd, hMsan, hMlc⟩ := hM
  obtain ⟨m1, hu1, hm1char, hQk, hQlc, hQwf⟩ :=
    merge_and_save_char schema P M Q hPnd hMnd hMlc h
  have hoptP : ∀ k, OptWF (dget P k) := optwf_dget hPwf
  have hoptM : ∀ k, OptSan (dget M k) := optsan_dget hMsan
  have hMlcnone : dget M "lead_classification" = none := dget_eq_none_of_all_keys_ne hMlc
  have hcompatQ : ∀ k lm, dget M k = some (.list lm) → listCompat (dget Q k) := by
    intro k lm hk
    have hklc : k ≠ "lead_classification" := by
      intro hc
      rw [hc, hMlcnone] at hk
      cases hk
    have hlm : ∀ e ∈ lm, isStrScalar e = true := by
      have hs := hoptM k
      rw [hk] at hs
      exact hs
    rw [hQk k hklc, hk, finalSlot_list (hoptP k) hlm]
    by_cases he : pyDedup (exListD (dget P k) ++ lm) = []
    · rw [if_pos he]
      exact Or.inl rfl
    · rw [if_neg he]
      exact Or.inr ⟨_, rfl⟩
  obtain ⟨Q2, hQ2⟩ := merge_and_save_ok schema Q M hQwf.1 hMnd hcompatQ
  obtain ⟨m1p, hu1p, hm1pchar, hQ2k, hQ2lc, _⟩ :=
    merge_and_save_char schema Q M Q2 hQwf.1 hMnd hMlc hQ2
  have hm1eq : ∀ k, k ≠ "lead_classification" → dget m1p k = dget m1 k := by
    intro k hk
    rw [hm1pchar k, hm1char k, hQk k hk]
    exact mergedSlot_stab (hoptP k) (hoptM k)
  have hcls : classify_lead m1p schema = classify_lead m1 schema :=
    classify_lead_congr schema m1p m1 (fun fc hfc => hm1eq fc.1 (hS fc hfc))
  refine ⟨Q2, hQ2, ?_⟩
  intro k
  by_cases hk : k = "lead_classification"
  · subst hk
    rw [hQ2lc, hQlc, hcls]
  · rw [hQ2k k hk, hQk k hk]
    exact finalSlot_idem (hoptP k) (hoptM k)

theorem merge_idempotent_witness :
    ∃ Q2, merge_and_save exThreshSchema exQ5 exM5 = Except.ok Q2
      ∧ dget Q2 "amenities" = dget exQ5 "amenities"
      ∧ dget Q2 "lead_classification" = dget exQ5 "lead_classification" := by
  obtain ⟨Q2, hQ2, hall⟩ := merge_idempotent exThreshSchema exP5 exM5 exQ5
    (by decide) (by decide) (by decide) (by rfl)
  exact ⟨Q2, hQ2, hall "amenities", hall "lead_classification"⟩

/-- C6: the profile merge is monotone.  For every stored profile `P`
(unique keys, well-formed values — in particular every present value is
non-empty) and sanitized incoming metadata `M` (unique keys,
null/string/string-list values, no `lead_classification` key), when
list-valued incoming slots meet list-or-absent stored slots (otherwise
the Python concatenation raises) and the stored profile does not hold a
list under the derived `lead_classification` tag, any successful merge
`merge_and_save schema P M = .ok Q` degrades nothing: every key present
in `P` is present in `Q` with a well-formed — hence non-empty,
non-null — value, and every list field of `P` only grows, the persisted
list containing every element of the stored one. -/
theorem merge_monotone
    (schema : FieldSchema) (P M Q : List (String × PyVal))
    (hP : ProfileWF P) (hM : SanitizedWF M)
    (hAlign : ∀ k l, dget P k = some (.list l) →
      dget M k = none ∨ ∃ lm, dget M k = some (.list lm))
    (hPlc : ∀ l, dget P "lead_classification" ≠ some (PyVal.list l))
    (h : merge_and_save schema P M = .ok Q) :
    (∀ k v, dget P k = some v → ∃ w, dget Q k = some w ∧ WFVal w)
      ∧ (∀ k l, dget P k = some (.list l) →
          ∃ lp, dget Q k = some (.list lp) ∧ ∀ x ∈ l, x ∈ lp) := by
  obtain ⟨hPnd, hPwf⟩ := hP
  obtain ⟨hMnd, hMsan, hMlc⟩ := hM
  obtain ⟨m1, hu1, hm1char, hQk, hQlc, hQwf⟩ :=
    merge_and_save_char schema P M Q hPnd hMnd hMlc h
  have hoptP : ∀ k, OptWF (dget P k) := optwf_dget hPwf
  have hoptM : ∀ k, OptSan (dget M k) := optsan_dget hMsan
  constructor
  · intro k v hkv
    by_cases hk : k = "lead_classification"
    · subst hk
      exact ⟨_, hQlc, tier_wf m1 schema⟩
    · have hwfv : WFVal v := by
        have hw := hoptP k
        rw [hkv] at hw
        exact hw
      rw [hQk k hk]
      cases hmk : dget M k with
      | none =>
        rw [finalSlot_nullish (hoptP k) (Or.inl rfl)]
        exact ⟨v, hkv, hwfv⟩
      | some mv =>
        cases mv with
        | null =>
          rw [finalSlot_nullish (hoptP k) (Or.inr rfl)]
          exact ⟨v, hkv, hwfv⟩
        | i n =>
          exfalso
          have hs := hoptM k
          rw [hmk] at hs
          exact hs
        | s w =>
          rw [finalSlot_s (hoptP k) w]
          by_cases hb : pstrip w = ""
          · rw [if_pos hb]
            exact ⟨v, hkv, hwfv⟩
          · rw [if_neg hb]
            exact ⟨_, rfl, pstrip_idem w, hb⟩
        | list lm =>
          have hlc : listCompat (dget P k) := update_merge_compat M P m1 hMnd hu1 k lm hmk
          rcases hlc with hnone | ⟨ex, hex⟩
          · rw [hkv] at hnone
            cases hnone
          · rw [hkv] at hex
            injection hex with hex
            subst hex
            obtain ⟨hne, hnd, hstr⟩ := hwfv
            have hlm : ∀ e ∈ lm, isStrScalar e = true := by
              have hs := hoptM k
              rw [hmk] at hs
              exact hs
            rw [finalSlot_list (hoptP k) hlm]
            have hEx : exListD (dget P k) = ex := by
              rw [hkv]
              rfl
            rw [hEx]
            have hnonnil : pyDedup (ex ++ lm) ≠ [] := by
              rw [Ne, pyDedup_eq_nil_iff]
              intro hc
              exact hne (List.append_eq_nil.mp hc).1
            rw [if_neg hnonnil]
            refine ⟨_, rfl, hnonnil, pyDedup_nodup _, ?_⟩
            intro e he
            rcases List.mem_append.mp (mem_pyDedup.mp he) with hcase | hcase
            · exact hstr e hcase
            · exact hlm e hcase
  · intro k l hkl
    have hklc : k ≠ "lead_classification" := by
      intro hc
      exact hPlc l (hc ▸ hkl)
    have hwfl : WFVal (PyVal.list l) := by
      have hw := hoptP k
      rw [hkl] at hw
      exact hw
    obtain ⟨hne, hnd, hstr⟩ := hwfl
    rw [hQk k hklc]
    cases hmk : dget M k with
    | none =>
      rw [finalSlot_nullish (hoptP k) (Or.inl rfl)]
      exact ⟨l, hkl, fun x hx => hx⟩
    | some mv =>
      rcases hAlign k l hkl with hA | ⟨lm, hA⟩
      · rw [hmk] at hA
        cases hA
      · rw [hmk] at hA
        injection hA with hA
        subst hA
        have hlm : ∀ e ∈ lm, isStrScalar e = true := by
          have hs := hoptM k
          rw [hmk] at hs
          exact hs
        rw [finalSlot_list (hoptP k) hlm]
        have hEx : exListD (dget P k) = l := by
          rw [hkl]
          rfl
        rw [hEx]
        have hnonnil : pyDedup (l ++ lm) ≠ [] := by
          rw [Ne, pyDedup_eq_nil_iff]
          intro hc
          exact hne (List.append_eq_nil.mp hc).1
        rw [if_neg hnonnil]
        exact ⟨_, rfl, fun x hx => mem_pyDedup.mpr (List.mem_append.mpr (Or.inl hx))⟩

theorem merge_monotone_witness :
    (∃ w, dget exQ6 "location" = some w ∧ WFVal w)
      ∧ ∃ lp, dget exQ6 "amenities" = some (PyVal.list lp) ∧ PyScalar.s "garden" ∈ lp := by
  have hAlign : ∀ k l, dget exP6 k = some (.list l) →
      dget exM6 k = none ∨ ∃ lm, dget exM6 k = some (.list lm) := by
    intro k l hk
    have hm : (k, PyVal.list l) ∈ exP6 := dget_mem hk
    simp only [exP6, List.mem_cons, List.not_mem_nil, or_false] at hm
    rcases hm with hm | hm
    · exact absurd (congrArg Prod.snd hm) (by simp)
    · have hk1 : k = "amenities" := congrArg Prod.fst hm
      subst hk1
      exact Or.inr ⟨[.s "parking"], rfl⟩
  have hPlc : ∀ l, dget exP6 "lead_classification" ≠ some (PyVal.list l) := by
    intro l hc
    have hnone : dget exP6 "lead_classification" = (none : Option PyVal) := rfl
    rw [hnone] at hc
    cases hc
  have hmono := merge_monotone exThreshSchema exP6 exM6 exQ6
    (by decide) (by decide) hAlign hPlc (by rfl)
  refine ⟨hmono.1 "location" (.s "Leeds") (by rfl), ?_⟩
  obtain ⟨lp, hlp, hsub⟩ := hmono.2 "amenities" [.s "garden"] (by rfl)
  exact ⟨lp, hlp, hsub _ (by simp)⟩

end RAG
